import Mathlib

/-!
Verification of the wayang collaborative-canvas core.

This file gives a shallow embedding, in Lean 4, of the parts of the
wayang repository that the documented properties talk about:

* the geometry kernel (src/hooks/useMouse.ts and the resize-calculation
  utilities): corner normalization, handle positions, pivot lookup and
  aspect-ratio constrained bounds;
* the Fraction / Layer / Canvas value types (src/types/core.ts);
* the document store operations of src/hooks/useCollaborativeCanvas.ts,
  in both layouts present in the repository: the nested layout (one
  shared array of canvas records, each holding its layer records) and
  the normalized layout (a canvas map, a canvas-to-layer-ids map, and
  one shared array per layer);
* the transform session machines (the layer dragging and layer resizing
  hooks) together with the commit handlers of the dalang page, which is
  the component tree that actually mounts them.

JavaScript numbers are modelled by the rationals.  Where the source
relies on IEEE behaviour at a division by zero (Infinity or NaN feeding
a comparison), the embedding spells the affected case out as an explicit
conditional, with a comment naming the IEEE value the branch mirrors.
Fresh uuid generation is modelled by passing an arbitrary supply of
identifiers; the theorems about the reactive bridge quantify over that
supply.
-/

set_option autoImplicit false

namespace Wayang

/-- A point of the canvas plane, as in the Point class of core.ts. -/
structure Pt where
  x : ℚ
  y : ℚ
deriving DecidableEq, Repr

/-- Width of a corner pair: absolute x difference of the two corners. -/
def wOf (b : Pt × Pt) : ℚ := |b.2.x - b.1.x|

/-- Height of a corner pair: absolute y difference of the two corners. -/
def hOf (b : Pt × Pt) : ℚ := |b.2.y - b.1.y|

/-- The normalized corner pair spanned by two points: bottomLeft is
(minX, maxY) and topRight is (maxX, minY).  Used to state what the
normalization step of calculateNewBounds produces. -/
def normalizedRect (m p : Pt) : Pt × Pt :=
  (⟨min m.x p.x, max m.y p.y⟩, ⟨max m.x p.x, min m.y p.y⟩)

/-- The final normalization step shared by every branch of
calculateNewBounds: from the assigned coordinates x1 y1 x2 y2, build
bottomLeft = (minX, maxY) and topRight = (maxX, minY). -/
def normPair (x1 y1 x2 y2 : ℚ) : Pt × Pt :=
  (⟨min x1 x2, max y1 y2⟩, ⟨max x1 x2, min y1 y2⟩)

/-- calculateNewBounds of src/hooks/useMouse.ts (the unlocked variant):
per-handle assignment of the defining coordinates, followed by the
min/max normalization producing bottomLeft = (minX, maxY) and
topRight = (maxX, minY).  Handle indices outside 0..3 take the fallback
branch of the switch. -/
def calculateNewBounds (mousePos pivotPoint : Pt) (activeHandle : ℕ) : Pt × Pt :=
  match activeHandle with
  | 0 => normPair mousePos.x mousePos.y pivotPoint.x pivotPoint.y
  | 1 => normPair pivotPoint.x mousePos.y mousePos.x pivotPoint.y
  | 2 => normPair pivotPoint.x pivotPoint.y mousePos.x mousePos.y
  | 3 => normPair mousePos.x pivotPoint.y pivotPoint.x mousePos.y
  | _ =>
    normPair (min mousePos.x pivotPoint.x) (min mousePos.y pivotPoint.y)
      (max mousePos.x pivotPoint.x) (max mousePos.y pivotPoint.y)

/-- getOppositeHandle of the resize-calculation utilities: the pivot
corner index is the grabbed index plus two, modulo four. -/
def getOppositeHandle (handleIndex : ℕ) : ℕ := (handleIndex + 2) % 4

/-- getHandlePositions: corner positions indexed 0 = topLeft,
1 = topRight, 2 = bottomRight, 3 = bottomLeft, computed from the
min corner and the absolute width and height. -/
def getHandlePositions (bottomLeft topRight : Pt) : List Pt :=
  let x := min bottomLeft.x topRight.x
  let y := min bottomLeft.y topRight.y
  let w := |topRight.x - bottomLeft.x|
  let h := |topRight.y - bottomLeft.y|
  [⟨x, y⟩, ⟨x + w, y⟩, ⟨x + w, y + h⟩, ⟨x, y + h⟩]

/-- Math.sign as used on the pivot deltas. -/
def jsSign (q : ℚ) : ℚ := if 0 < q then 1 else if q < 0 then -1 else 0

/-- The five-argument calculateNewBounds of the resize-calculation
utilities.  Its unlocked branch and its per-handle corner assignment
plus normalization are letter for letter the three-argument
calculateNewBounds above, so the embedding reuses it; only the
aspect-locked computation of the constrained mouse point is new.
The truthiness test of the source, maintainAspectRatio together with
a defined nonzero ratio, selects the locked branch.  The source
divides currentWidth by currentHeight: when currentHeight is zero that
quotient is Infinity for positive currentWidth (first comparison true)
and NaN for zero currentWidth (first comparison false); the embedding
spells those two cases out. -/
def calculateNewBoundsA (mousePos pivotPoint : Pt) (activeHandle : ℕ)
    (maintainAspect : Bool) (origRatio : Option ℚ) : Pt × Pt :=
  match origRatio with
  | some r =>
    if maintainAspect = true ∧ r ≠ 0 then
      let deltaX := mousePos.x - pivotPoint.x
      let deltaY := mousePos.y - pivotPoint.y
      let currentWidth := |deltaX|
      let currentHeight := |deltaY|
      let wide : Prop :=
        (currentHeight = 0 ∧ 0 < currentWidth) ∨
        (currentHeight ≠ 0 ∧ currentWidth / currentHeight > r)
      let cw := if wide then currentWidth else currentHeight * r
      let ch := if wide then currentWidth / r else currentHeight
      calculateNewBounds
        ⟨pivotPoint.x + cw * jsSign deltaX, pivotPoint.y + ch * jsSign deltaY⟩
        pivotPoint activeHandle
    else calculateNewBounds mousePos pivotPoint activeHandle
  | none => calculateNewBounds mousePos pivotPoint activeHandle

/-- gcd of the Fraction class: Euclid on the absolute values via the
JavaScript remainder, returning a nonnegative result. -/
def fracGcd (a b : ℤ) : ℤ := (Int.gcd a b : ℤ)

/-- The Fraction class of core.ts: integer numerator and denominator,
reduced on construction. -/
structure Fraction where
  num : ℤ
  den : ℤ
deriving DecidableEq, Repr

/-- The Fraction constructor followed by simplify: divide by the gcd
(collapsing to the zero fraction when the gcd is zero, that is when
both arguments are zero) and normalize the sign onto the numerator.
Division is exact because the divisor is the gcd. -/
def Fraction.init (numerator denominator : ℤ) : Fraction :=
  if fracGcd numerator denominator = 0 then ⟨0, 0⟩
  else if denominator / fracGcd numerator denominator < 0 ∨
      (denominator / fracGcd numerator denominator = 0 ∧
       numerator / fracGcd numerator denominator < 0) then
    ⟨-(numerator / fracGcd numerator denominator), -(denominator / fracGcd numerator denominator)⟩
  else ⟨numerator / fracGcd numerator denominator, denominator / fracGcd numerator denominator⟩

/-- getFloat: the quotient of the stored fields, or zero when the
stored denominator is zero. -/
def Fraction.getFloat (f : Fraction) : ℚ :=
  if f.den = 0 then 0 else (f.num : ℚ) / (f.den : ℚ)

/-- getAspectRatio().getFloat() of the Layer class, from the original
pre-scale dimensions. -/
def aspectFloat (oriWidth oriHeight : ℤ) : ℚ :=
  (Fraction.init oriWidth oriHeight).getFloat

/-- The aspect-ratio adjustment inside Layer.resize of core.ts (the
same computation is inlined in resizeLayer of the collaborative-canvas
hook): compare the candidate aspect ratio with r, then shrink the free
edge of whichever dimension is too large.  The source compares
newWidth / newHeight with r: when newHeight is zero the quotient is
Infinity for positive newWidth (first comparison true) and NaN when
both are zero (both comparisons false); the embedding spells those
cases out. -/
def resizeAspect (r : ℚ) (bl tr : Pt) : Pt × Pt :=
  let w := |tr.x - bl.x|
  let h := |tr.y - bl.y|
  if (h = 0 ∧ 0 < w) ∨ (h ≠ 0 ∧ w / h > r) then
    let adjW := h * r
    if bl.x < tr.x then (bl, ⟨bl.x + adjW, tr.y⟩) else (⟨tr.x + adjW, bl.y⟩, tr)
  else if h ≠ 0 ∧ w / h < r then
    let adjH := w / r
    if bl.y < tr.y then (bl, ⟨tr.x, bl.y + adjH⟩) else (⟨bl.x, tr.y + adjH⟩, tr)
  else (bl, tr)

/-- Layer.resize of core.ts: when maintainAspectRatio is set, adjust
the candidate corners with the ratio taken from getAspectRatio (a
Fraction, so a zero original height gives ratio zero, never Infinity),
then store the corners. -/
def layerResize (oriWidth oriHeight : ℤ) (bl tr : Pt) (maintain : Bool) : Pt × Pt :=
  if maintain then resizeAspect (aspectFloat oriWidth oriHeight) bl tr else (bl, tr)

/-- The aspect adjustment of resizeLayer in the collaborative-canvas
hook.  Unlike Layer.resize it computes the ratio by the raw division
oriWidth / oriHeight.  For a zero original height that division yields
Infinity in JavaScript (for positive oriWidth): the first comparison
never holds and the second holds exactly when the candidate height is
nonzero, with adjusted height newWidth / Infinity = 0; for zero
oriWidth it yields NaN and nothing is adjusted.  A negative oriWidth
with zero oriHeight would propagate non-finite coordinates; original
dimensions are image pixel sizes, so that case is outside the
embedding and left as the identity. -/
def resizeLayerAdjust (oriWidth oriHeight : ℤ) (bl tr : Pt) (maintain : Bool) : Pt × Pt :=
  if maintain then
    if oriHeight = 0 then
      if 0 < oriWidth then
        let h := |tr.y - bl.y|
        if h ≠ 0 then
          if bl.y < tr.y then (bl, ⟨tr.x, bl.y⟩) else (⟨bl.x, tr.y⟩, tr)
        else (bl, tr)
      else (bl, tr)
    else resizeAspect ((oriWidth : ℚ) / (oriHeight : ℚ)) bl tr
  else (bl, tr)

/-- The aspect-locked resize pipeline the claims describe: candidate
corners normalized from the mouse position and the pivot, then the
aspect adjustment of Layer.resize with the lock engaged. -/
def lockedResize (oriWidth oriHeight : ℤ) (mouse pivot : Pt) (handleIndex : ℕ) : Pt × Pt :=
  let b := calculateNewBounds mouse pivot handleIndex
  layerResize oriWidth oriHeight b.1 b.2 true

/-- BackgroundConfig of core.ts, flattened as the store flattens it. -/
structure BackgroundConfig where
  bgType : String
  color : String
  imageSrc : String
  imageWidth : ℚ
  imageHeight : ℚ
deriving DecidableEq, Repr

/-- A layer record: the fields the store keeps for a Layer or
ImageLayer (srcPath present exactly for the image variant; the
remaining image metadata plays no role in any claim and is omitted
from the record the same way the base Layer omits it). -/
structure LayerData where
  id : String
  bottomLeft : Pt
  topRight : Pt
  layerOrder : ℚ
  oriWidth : ℤ
  oriHeight : ℤ
  srcPath : Option String
deriving DecidableEq, Repr

/-- A canvas record of the nested layout: id, dimensions, background
and the shared array of its layer records (stacking order is the
position in this list). -/
structure CanvasRec where
  id : String
  width : ℚ
  height : ℚ
  bg : BackgroundConfig
  layers : List LayerData
deriving DecidableEq, Repr

/-- The Canvas constructor of core.ts: stores the given dimensions and
background unchecked, draws a fresh uuid and starts with no layers. -/
def mkCanvas (freshId : String) (width height : ℚ) (bg : BackgroundConfig) : CanvasRec :=
  ⟨freshId, width, height, bg, []⟩

/-- The Layer constructor of core.ts: stores the given corners, order
key and original dimensions, and draws a fresh uuid. -/
def mkLayer (freshId : String) (bottomLeft topRight : Pt) (layerOrder : ℚ)
    (oriWidth oriHeight : ℤ) (srcPath : Option String) : LayerData :=
  ⟨freshId, bottomLeft, topRight, layerOrder, oriWidth, oriHeight, srcPath⟩

/-- createCanvas of the collaborative-canvas hook (nested layout): a
new Canvas is constructed from the arguments as given — there is no
validation of the dimensions — converted to a shared record and pushed
onto the shared canvases array; the new object is returned to the
caller. -/
def createCanvasOp (freshId : String) (width height : ℚ) (bg : BackgroundConfig)
    (s : List CanvasRec) : CanvasRec × List CanvasRec :=
  let c := mkCanvas freshId width height bg
  (c, s ++ [c])

/-- The index scan shared by the nested-layout operations: first canvas
whose stored id matches. -/
def canvasIdx? (canvasId : String) : List CanvasRec → Option ℕ
  | [] => none
  | c :: cs => if c.id = canvasId then some 0 else (canvasIdx? canvasId cs).map (· + 1)

/-- Replace the canvas at a found index by an updated record. -/
def updCanvasAt (s : List CanvasRec) (i : ℕ) (f : CanvasRec → CanvasRec) : List CanvasRec :=
  match s[i]? with
  | some c => s.set i (f c)
  | none => s

/-- addLayerToCanvas, nested layout: no-op when the canvas id is
unknown, otherwise push the layer record onto that canvas. -/
def addLayerN (canvasId : String) (l : LayerData) (s : List CanvasRec) : List CanvasRec :=
  match canvasIdx? canvasId s with
  | none => s
  | some i => updCanvasAt s i (fun c => { c with layers := c.layers ++ [l] })

/-- removeLayerFromCanvas, nested layout: delete the first layer record
with the given id from the canvas, if both are found. -/
def removeFirstById (layerId : String) : List LayerData → List LayerData
  | [] => []
  | l :: ls => if l.id = layerId then ls else l :: removeFirstById layerId ls

def removeLayerN (canvasId layerId : String) (s : List CanvasRec) : List CanvasRec :=
  match canvasIdx? canvasId s with
  | none => s
  | some i =>
    updCanvasAt s i (fun c => { c with layers := removeFirstById layerId c.layers })

/-- The update object passed to updateLayer: optional new corners and
order key. -/
structure LayerUpdate where
  bottomLeft : Option Pt
  topRight : Option Pt
  layerOrder : Option ℚ
deriving DecidableEq, Repr

/-- Merge an update into a layer record, field by field as the source
writes the individual keys. -/
def applyUpdate (u : LayerUpdate) (l : LayerData) : LayerData :=
  let l1 := match u.bottomLeft with | some p => { l with bottomLeft := p } | none => l
  let l2 := match u.topRight with | some p => { l1 with topRight := p } | none => l1
  match u.layerOrder with | some o => { l2 with layerOrder := o } | none => l2

/-- Apply a function to the first record with the given id, as the
break-on-match loop of the source does. -/
def setFirstById (layerId : String) (f : LayerData → LayerData) : List LayerData → List LayerData
  | [] => []
  | l :: ls => if l.id = layerId then f l :: ls else l :: setFirstById layerId f ls

/-- updateLayer, nested layout: merge the given fields into the first
matching layer record of the canvas; no-op when either id is unknown. -/
def updateLayerN (canvasId layerId : String) (u : LayerUpdate) (s : List CanvasRec) : List CanvasRec :=
  match canvasIdx? canvasId s with
  | none => s
  | some i => updCanvasAt s i (fun c => { c with layers := setFirstById layerId (applyUpdate u) c.layers })

/-- moveLayerUp, nested layout, restricted to one layer sequence: find
the record, and unless it is last, take it out and reinsert it one
position later (the swap with the upper neighbour). -/
def idxOf? (layerId : String) : List LayerData → Option ℕ
  | [] => none
  | l :: ls => if l.id = layerId then some 0 else (idxOf? layerId ls).map (· + 1)

def moveUpL (layerId : String) (ls : List LayerData) : List LayerData :=
  match idxOf? layerId ls with
  | none => ls
  | some i =>
    match ls[i]? with
    | some a => if i < ls.length - 1 then (ls.eraseIdx i).insertIdx (i + 1) a else ls
    | none => ls

/-- moveLayerDown, nested layout, restricted to one layer sequence:
find the record, and unless it is first, take it out and reinsert it
one position earlier. -/
def moveDownL (layerId : String) (ls : List LayerData) : List LayerData :=
  match idxOf? layerId ls with
  | none => ls
  | some i =>
    match ls[i]? with
    | some a => if 0 < i then (ls.eraseIdx i).insertIdx (i - 1) a else ls
    | none => ls

/-- moveLayerUp, nested layout, at the store level. -/
def moveLayerUpN (canvasId layerId : String) (s : List CanvasRec) : List CanvasRec :=
  match canvasIdx? canvasId s with
  | none => s
  | some i => updCanvasAt s i (fun c => { c with layers := moveUpL layerId c.layers })

/-- moveLayerDown, nested layout, at the store level. -/
def moveLayerDownN (canvasId layerId : String) (s : List CanvasRec) : List CanvasRec :=
  match canvasIdx? canvasId s with
  | none => s
  | some i => updCanvasAt s i (fun c => { c with layers := moveDownL layerId c.layers })

/-- deleteCanvas, nested layout: delete the first canvas record whose
id matches (its nested layer records go with it); no-op otherwise. -/
def deleteCanvasN (canvasId : String) (s : List CanvasRec) : List CanvasRec :=
  match canvasIdx? canvasId s with
  | none => s
  | some i => s.eraseIdx i

/-- Lookup in a shared map, first entry with the given key. -/
def mget {α : Type} (k : String) : List (String × α) → Option α
  | [] => none
  | p :: ps => if p.1 = k then some p.2 else mget k ps

/-- Shared-map set: overwrite the entry with the given key, or append
a new entry. -/
def mset {α : Type} (k : String) (v : α) : List (String × α) → List (String × α)
  | [] => [(k, v)]
  | p :: ps => if p.1 = k then (k, v) :: ps else p :: mset k v ps

/-- Shared-map delete: remove the entry with the given key. -/
def mdel {α : Type} (k : String) : List (String × α) → List (String × α)
  | [] => []
  | p :: ps => if p.1 = k then ps else p :: mdel k ps

/-- Canvas metadata of the normalized layout (canvasToYjsMetadata). -/
structure CanvasMeta where
  id : String
  width : ℚ
  height : ℚ
  background : BackgroundConfig
  createdAt : String
  updatedAt : String
deriving DecidableEq, Repr

/-- The normalized document layout: the canvas map, the
canvas-to-layer-ids map and one shared array per layer id. -/
structure YDocState where
  canvasMap : List (String × CanvasMeta)
  canvasLayers : List (String × List String)
  layerArrays : List (String × List LayerData)
deriving DecidableEq, Repr

/-- updateLayerInYjs: clear the shared array of the layer id and push
the one record, regardless of whether anything referenced it before. -/
def updateLayerInYjs (layerId : String) (l : LayerData) (s : YDocState) : YDocState :=
  { s with layerArrays := mset layerId [l] s.layerArrays }

/-- addLayerToCanvasInYjs: read the id sequence of the canvas — an
unknown canvas id reads as the empty sequence — and write it back with
the new layer id appended. -/
def addLayerToCanvasInYjs (canvasId layerId : String) (s : YDocState) : YDocState :=
  let seq := ((mget canvasId s.canvasLayers).getD []) ++ [layerId]
  { s with canvasLayers := mset canvasId seq s.canvasLayers }

/-- addLayerToCanvas, normalized layout: store the layer record, then
append its id to the sequence of the canvas. -/
def addLayerY (canvasId : String) (l : LayerData) (s : YDocState) : YDocState :=
  addLayerToCanvasInYjs canvasId l.id (updateLayerInYjs l.id l s)

/-- Clear a list of layer arrays in order (the delete of the whole
content of each, as deleteCanvas does per hydrated layer). -/
def clearArrays : List String → List (String × List LayerData) → List (String × List LayerData)
  | [], m => m
  | lid :: lids, m => clearArrays lids (mset lid [] m)

/-- deleteCanvas, normalized layout.  The source guards on finding the
canvas in the local canvases array and walks that object, but the
local array is the observer-derived mirror of the store: the canvas
object exists exactly when the metadata record does, and its hydrated
layers are the sequence ids whose shared arrays are nonempty.  The
canvas metadata entry is deleted and each hydrated layer array is
cleared; nothing touches the canvas-to-layer-ids map. -/
def deleteCanvasY (canvasId : String) (s : YDocState) : YDocState :=
  match mget canvasId s.canvasMap with
  | none => s
  | some _ =>
    let layerIds := (mget canvasId s.canvasLayers).getD []
    let hydrated := layerIds.filter (fun lid => !((mget lid s.layerArrays).getD []).isEmpty)
    { canvasMap := mdel canvasId s.canvasMap
      canvasLayers := s.canvasLayers
      layerArrays := clearArrays hydrated s.layerArrays }

/-- yMapToLayer of the reactive bridge: rebuild a layer object from a
stored record.  The constructor draws a fresh uuid, which the bridge
immediately overrides with the stored id. -/
def yMapToLayer (freshId : String) (d : LayerData) : LayerData :=
  { mkLayer freshId d.bottomLeft d.topRight d.layerOrder d.oriWidth d.oriHeight d.srcPath with
      id := d.id }

/-- Hydrate a list of stored layer records, each conversion drawing its
own fresh uuid from the supply. -/
def hydrateLayers (fresh : ℕ → String) : ℕ → List LayerData → List LayerData
  | _, [] => []
  | i, d :: ds => yMapToLayer (fresh i) d :: hydrateLayers fresh (i + 1) ds

/-- Stable insertion step: place the record before the first element
whose layerOrder is not smaller, so records with equal keys keep their
relative order. -/
def insertByOrder (x : LayerData) : List LayerData → List LayerData
  | [] => [x]
  | y :: ys => if y.layerOrder < x.layerOrder then y :: insertByOrder x ys else x :: y :: ys

/-- The sort of the bridge: a stable sort by the layerOrder key,
modelling the comparator a.layerOrder minus b.layerOrder under the
stable JavaScript Array sort. -/
def sortByOrder : List LayerData → List LayerData
  | [] => []
  | x :: xs => insertByOrder x (sortByOrder xs)

/-- yMapToCanvas of the reactive bridge: rebuild a canvas object (the
constructor draws a fresh uuid, overridden by the stored id), hydrate
its layer records and sort them by layerOrder. -/
def yMapToCanvas (fresh : ℕ → String) (c : CanvasRec) : CanvasRec :=
  { mkCanvas (fresh 0) c.width c.height c.bg with
      id := c.id
      layers := sortByOrder (hydrateLayers fresh 1 c.layers) }

/-- Derivation over the snapshot, one uuid supply per canvas. -/
def deriveAux (fresh : ℕ → ℕ → String) : ℕ → List CanvasRec → List CanvasRec
  | _, [] => []
  | i, c :: cs => yMapToCanvas (fresh i) c :: deriveAux fresh (i + 1) cs

/-- The canvases memo of the reactive bridge: convert every snapshot
record. -/
def deriveCanvases (fresh : ℕ → ℕ → String) (snap : List CanvasRec) : List CanvasRec :=
  deriveAux fresh 0 snap

/-- One store write: an updateLayer call with a canvas id, a layer id
and the two corners. -/
structure StoreWrite where
  canvasId : String
  layerId : String
  bottomLeft : Pt
  topRight : Pt
deriving DecidableEq, Repr

/-- The ref state of the layer-dragging hook. -/
structure DragSt where
  layerId : Option String
  startPos : Option Pt
  initialBounds : Option (Pt × Pt)
  currentBounds : Option (Pt × Pt)
deriving DecidableEq, Repr

/-- The layer-dragging hook as a machine: the isDragging flag, the
throttle clock of the preview callback, and the ref state. -/
structure DragM where
  isDragging : Bool
  lastUpdateTime : ℤ
  st : DragSt
deriving DecidableEq, Repr

/-- Initial hook state (lastUpdateTime starts at zero). -/
def dragInit : DragM := ⟨false, 0, ⟨none, none, none, none⟩⟩

/-- startDragging: record the layer id, the mouse-down position and the
session-start corners; no current bounds yet. -/
def startDragging (l : LayerData) (mousePos : Pt) (m : DragM) : DragM :=
  { isDragging := true
    lastUpdateTime := m.lastUpdateTime
    st := ⟨some l.id, some mousePos, some (l.bottomLeft, l.topRight), none⟩ }

/-- The candidate bounds of one drag sample: session-start corners
translated by the offset of the mouse from the drag start. -/
def dragBoundsOf (startPos : Pt) (ib : Pt × Pt) (mouse : Pt) : Pt × Pt :=
  (⟨ib.1.x + (mouse.x - startPos.x), ib.1.y + (mouse.y - startPos.y)⟩,
   ⟨ib.2.x + (mouse.x - startPos.x), ib.2.y + (mouse.y - startPos.y)⟩)

/-- updateDragPosition: guarded on a live session with all refs set;
the candidate bounds are always stored as current bounds, and the
preview callback fires only when at least 16 milliseconds have passed
since the last accepted preview (about sixty per second). -/
def updateDragPosition (now : ℤ) (mouse : Pt) (m : DragM) : DragM × Option (String × Pt × Pt) :=
  match m.isDragging, m.st.startPos, m.st.initialBounds, m.st.layerId with
  | true, some sp, some ib, some lid =>
    let nb := dragBoundsOf sp ib mouse
    if 16 ≤ now - m.lastUpdateTime then
      ({ m with lastUpdateTime := now, st := { m.st with currentBounds := some nb } },
       some (lid, nb))
    else
      ({ m with st := { m.st with currentBounds := some nb } }, none)
  | _, _, _, _ => (m, none)

/-- Run a list of timed move samples through updateDragPosition. -/
def runDragMoves : DragM → List (ℤ × Pt) → DragM
  | m, [] => m
  | m, s :: rest => runDragMoves (updateDragPosition s.1 s.2 m).1 rest

/-- endDragging: nothing when no session is live; otherwise the end
callback fires with the current bounds when both the layer id and some
current bounds exist, and the state is reset. -/
def endDragging (m : DragM) : DragM × Option (String × Pt × Pt) :=
  if m.isDragging = false then (m, none)
  else
    let r : DragM := ⟨false, m.lastUpdateTime, ⟨none, none, none, none⟩⟩
    match m.st.layerId, m.st.currentBounds with
    | some lid, some cb => (r, some (lid, cb))
    | _, _ => (r, none)

/-- A full move session: pointer-down on the layer, the move samples,
pointer-up; the result is the end-callback invocation, if any. -/
def dragSessionCommit (l : LayerData) (startMouse : Pt) (samples : List (ℤ × Pt)) :
    Option (String × Pt × Pt) :=
  (endDragging (runDragMoves (startDragging l startMouse dragInit) samples)).2

/-- handleLayerMoveEnd of the dalang page: one updateLayer store write
when a canvas is active.  The per-move preview callback of that page
only mutates the derived in-memory canvas objects and performs no
store write. -/
def handleLayerMoveEndW (activeCanvasId : Option String) (layerId : String) (bl tr : Pt) :
    List StoreWrite :=
  match activeCanvasId with
  | some cid => [⟨cid, layerId, bl, tr⟩]
  | none => []

/-- The store writes a whole move session performs, under the dalang
wiring: whatever the end callback commits through handleLayerMoveEnd. -/
def dragSessionWrites (activeCanvasId : Option String) (l : LayerData) (startMouse : Pt)
    (samples : List (ℤ × Pt)) : List StoreWrite :=
  match dragSessionCommit l startMouse samples with
  | some (lid, bl, tr) => handleLayerMoveEndW activeCanvasId lid bl tr
  | none => []

/-- The ref state of the layer-resizing hook. -/
structure ResizeSt where
  layerId : Option String
  handleIndex : Option ℕ
  initialBounds : Option (Pt × Pt)
  currentBounds : Option (Pt × Pt)
  maintainAspect : Bool
  origRatio : Option ℚ
deriving DecidableEq, Repr

/-- The layer-resizing hook as a machine. -/
structure ResizeM where
  isResizing : Bool
  activeHandle : Option ℕ
  lastUpdateTime : ℤ
  st : ResizeSt
deriving DecidableEq, Repr

/-- Initial hook state. -/
def resizeInit : ResizeM := ⟨false, none, 0, ⟨none, none, none, none, false, none⟩⟩

/-- startResizing: record the layer id, handle index and session-start
corners; the original aspect ratio is computed, via the Fraction class,
only when shift is already down at the pointer-down. -/
def startResizing (l : LayerData) (handleIndex : ℕ) (isShiftPressed : Bool) (m : ResizeM) :
    ResizeM :=
  { isResizing := true
    activeHandle := some handleIndex
    lastUpdateTime := m.lastUpdateTime
    st := ⟨some l.id, some handleIndex, some (l.bottomLeft, l.topRight), none, isShiftPressed,
      if isShiftPressed then some (aspectFloat l.oriWidth l.oriHeight) else none⟩ }

/-- The falsy guard of the source on the ratio it forwards: a missing
or zero stored ratio is passed on as undefined. -/
def orUndef (o : Option ℚ) : Option ℚ :=
  match o with
  | some r => if r = 0 then none else some r
  | none => none

/-- The pivot of a resize session: looked up from the session-start
corners at the opposite handle index. -/
def sessionPivot (ib : Pt × Pt) (handleIndex : ℕ) : Pt :=
  (getHandlePositions ib.1 ib.2).getD (getOppositeHandle handleIndex) ⟨0, 0⟩

/-- The remainder of one resize sample: the five-argument
calculateNewBounds with the live shift state and the stored ratio,
forwarded only when shift is down and through the falsy guard. -/
def resizeSampleBounds (ib : Pt × Pt) (handleIndex : ℕ) (ratio0 : Option ℚ) (mouse : Pt)
    (isShiftPressed : Bool) : Pt × Pt :=
  calculateNewBoundsA mouse (sessionPivot ib handleIndex) handleIndex isShiftPressed
    (orUndef (if isShiftPressed then ratio0 else none))

/-- updateResizePosition: guarded on a live session with all refs set;
current bounds and the live maintain flag are always stored, and the
preview callback is throttled exactly as for dragging. -/
def updateResizePosition (now : ℤ) (mouse : Pt) (isShiftPressed : Bool) (m : ResizeM) :
    ResizeM × Option (String × Pt × Pt × Bool) :=
  match m.isResizing, m.st.initialBounds, m.st.layerId, m.activeHandle, m.st.handleIndex with
  | true, some ib, some lid, some _, some hIdx =>
    let nb := resizeSampleBounds ib hIdx m.st.origRatio mouse isShiftPressed
    let st' := { m.st with currentBounds := some nb, maintainAspect := isShiftPressed }
    if 16 ≤ now - m.lastUpdateTime then
      ({ m with lastUpdateTime := now, st := st' }, some (lid, nb.1, nb.2, isShiftPressed))
    else
      ({ m with st := st' }, none)
  | _, _, _, _, _ => (m, none)

/-- Run a list of timed, shift-annotated move samples. -/
def runResizeMoves : ResizeM → List (ℤ × Pt × Bool) → ResizeM
  | m, [] => m
  | m, s :: rest => runResizeMoves (updateResizePosition s.1 s.2.1 s.2.2 m).1 rest

/-- endResizing: the end callback fires with the current bounds and the
stored maintain flag when a session is live and some move happened. -/
def endResizing (m : ResizeM) : ResizeM × Option (String × Pt × Pt × Bool) :=
  if m.isResizing = false then (m, none)
  else
    let r : ResizeM := ⟨false, none, m.lastUpdateTime, ⟨none, none, none, none, false, none⟩⟩
    match m.st.layerId, m.st.currentBounds with
    | some lid, some cb => (r, some (lid, cb.1, cb.2, m.st.maintainAspect))
    | _, _ => (r, none)

/-- A full resize session, from pointer-down to pointer-up. -/
def resizeSessionCommit (l : LayerData) (handleIndex : ℕ) (shift0 : Bool)
    (samples : List (ℤ × Pt × Bool)) : Option (String × Pt × Pt × Bool) :=
  (endResizing (runResizeMoves (startResizing l handleIndex shift0 resizeInit) samples)).2

/-- The find of resizeLayer on the layers of the active canvas: first
layer object whose id matches. -/
def findById (layerId : String) : List LayerData → Option LayerData
  | [] => none
  | l :: ls => if l.id = layerId then some l else findById layerId ls

/-- resizeLayer of the collaborative-canvas hook: guarded on the active
canvas matching and the layer being found there, it re-applies the
aspect adjustment to the corners it is handed and performs exactly one
updateLayer store write with the adjusted corners. -/
def resizeLayerOp (activeCanvas : Option CanvasRec) (canvasId layerId : String) (bl tr : Pt)
    (maintain : Bool) : List StoreWrite :=
  match activeCanvas with
  | some c =>
    if c.id = canvasId then
      match findById layerId c.layers with
      | some l =>
        let b := resizeLayerAdjust l.oriWidth l.oriHeight bl tr maintain
        [⟨canvasId, layerId, b.1, b.2⟩]
      | none => []
    else []
  | none => []

/-- handleLayerResizeEnd of the dalang page: delegate to resizeLayer
when a canvas is active. -/
def handleLayerResizeEndW (activeCanvasId : Option String) (activeCanvas : Option CanvasRec)
    (layerId : String) (bl tr : Pt) (maintain : Bool) : List StoreWrite :=
  match activeCanvasId with
  | some cid => resizeLayerOp activeCanvas cid layerId bl tr maintain
  | none => []

/-- The store writes a whole resize session performs, under the dalang
wiring. -/
def resizeSessionWrites (activeCanvasId : Option String) (activeCanvas : Option CanvasRec)
    (l : LayerData) (handleIndex : ℕ) (shift0 : Bool) (samples : List (ℤ × Pt × Bool)) :
    List StoreWrite :=
  match resizeSessionCommit l handleIndex shift0 samples with
  | some (lid, bl, tr, maintain) =>
    handleLayerResizeEndW activeCanvasId activeCanvas lid bl tr maintain
  | none => []

/-- A concrete background for the concrete evaluations below. -/
def sampleBg : BackgroundConfig := ⟨"color", "#ffffff", "", 0, 0⟩

/-- A concrete layer record with original aspect ratio two. -/
def sampleLayer : LayerData := ⟨"l1", ⟨0, 1⟩, ⟨2, 0⟩, 0, 2, 1, none⟩

/-- A concrete canvas holding the sample layer. -/
def sampleCanvas : CanvasRec := ⟨"c1", 800, 600, sampleBg, [sampleLayer]⟩

/-- Concrete metadata of the sample canvas, normalized layout. -/
def sampleMeta : CanvasMeta := ⟨"c1", 800, 600, sampleBg, "", ""⟩

/-- A concrete normalized document with one canvas and one layer. -/
def sampleDoc : YDocState := ⟨[("c1", sampleMeta)], [("c1", ["l1"])], [("l1", [sampleLayer])]⟩

/-- The last element of a list of samples (none for the empty list);
used to state which move sample determines the committed bounds. -/
def lastOf {α : Type} : List α → Option α
  | [] => none
  | [a] => some a
  | _ :: b :: rest => lastOf (b :: rest)

/-- Two more concrete layer records, below and above the sample layer
in stacking order. -/
def sampleLayer0 : LayerData := ⟨"l0", ⟨0, 0⟩, ⟨1, 1⟩, 0, 1, 1, none⟩

def sampleLayer2 : LayerData := ⟨"l2", ⟨0, 0⟩, ⟨1, 1⟩, 2, 1, 1, none⟩

/-- A concrete canvas with a three-layer sequence. -/
def sampleCanvas9 : CanvasRec :=
  ⟨"c9", 10, 10, sampleBg, [sampleLayer0] ++ sampleLayer :: sampleLayer2 :: []⟩

/-- The adjacent swap of the normalized moveLayer operations: exchange
the entries at the given position and the next one. -/
def swapAdj : ℕ → List String → List String
  | 0, a :: b :: rest => b :: a :: rest
  | n + 1, a :: rest => a :: swapAdj n rest
  | _, l => l

/-- The hydrated, ordered layer list of a canvas in the normalized
layout, as the observer reload of the collaborative-canvas hook builds
it: resolve each id of the canvas-to-layer-ids entry against its
shared array, keep the first element of every nonempty array, and sort
the records by layerOrder with the stable Array sort.  The embedding
keeps the stored id on every hydrated record, as the base-Layer branch
of yjsDataToLayer does (its ImageLayer branch omits the id override,
an unrelated slip that would only randomize image-layer ids). -/
def hydrateLayersY (s : YDocState) (canvasId : String) : List LayerData :=
  sortByOrder
    (((mget canvasId s.canvasLayers).getD []).filterMap
      (fun lid => ((mget lid s.layerArrays).getD []).head?))

/-- moveLayerUp of the normalized layout: guarded on the active canvas
(derived, so present exactly when the metadata record is), it takes the
layerOrder-sorted hydrated list, finds the layer there, and — unless it
is last — overwrites the stored sequence of the canvas with the id list
of that sorted list, the found position swapped with the next one.  The
stored sequence itself is never consulted for the order. -/
def moveLayerUpY (canvasId layerId : String) (s : YDocState) : YDocState :=
  match mget canvasId s.canvasMap with
  | none => s
  | some _ =>
    let layers := hydrateLayersY s canvasId
    match idxOf? layerId layers with
    | none => s
    | some i =>
      if i = layers.length - 1 then s
      else
        let seq := mset canvasId (swapAdj i (layers.map LayerData.id)) s.canvasLayers
        { s with canvasLayers := seq }

/-- moveLayerDown of the normalized layout: as moveLayerUp, but the
found position of the sorted list is swapped with the previous one
unless it is first. -/
def moveLayerDownY (canvasId layerId : String) (s : YDocState) : YDocState :=
  match mget canvasId s.canvasMap with
  | none => s
  | some _ =>
    let layers := hydrateLayersY s canvasId
    match idxOf? layerId layers with
    | none => s
    | some i =>
      if i = 0 then s
      else
        let seq := mset canvasId (swapAdj (i - 1) (layers.map LayerData.id)) s.canvasLayers
        { s with canvasLayers := seq }

/-- A concrete normalized document with one canvas holding the stored
sequence l0, l1, l2 whose layerOrder keys are 0, 0, 2. -/
def sampleDoc3 : YDocState :=
  ⟨[("c3", ⟨"c3", 800, 600, sampleBg, "", ""⟩)],
   [("c3", ["l0", "l1", "l2"])],
   [("l0", [sampleLayer0]), ("l1", [sampleLayer]), ("l2", [sampleLayer2])]⟩

theorem calculateNewBounds_eq_normalizedRect (m p : Pt) (h : ℕ) :
    calculateNewBounds m p h = normalizedRect m p := by
  match h with
  | 0 => simp [calculateNewBounds, normPair, normalizedRect]
  | 1 => simp [calculateNewBounds, normPair, normalizedRect, min_comm, max_comm]
  | 2 => simp [calculateNewBounds, normPair, normalizedRect, min_comm, max_comm]
  | 3 => simp [calculateNewBounds, normPair, normalizedRect, min_comm, max_comm]
  | (n + 4) =>
    simp [calculateNewBounds, normPair, normalizedRect,
      min_le_iff, le_max_iff, min_assoc, max_assoc]


/-- C7: for every unlocked resize, the resulting corner pair is
normalized so that bottomLeft = (minX, maxY) and topRight =
(maxX, minY) of the two defining points, for every mouse position,
pivot point and handle index, hence regardless of drag direction. -/
theorem unlocked_bounds_normalized (m p : Pt) (h : ℕ) :
    (calculateNewBounds m p h).1 = ⟨min m.x p.x, max m.y p.y⟩ ∧
    (calculateNewBounds m p h).2 = ⟨max m.x p.x, min m.y p.y⟩ := by
  rw [calculateNewBounds_eq_normalizedRect]
  exact ⟨rfl, rfl⟩

/-- C10: the unlocked bounds computation does not depend on the handle
index: any two handle indices give the same result, and both equal the
normalized rectangle spanned by the mouse position and the pivot. -/
theorem unlocked_bounds_handle_independent (m p : Pt) (h1 h2 : ℕ) :
    calculateNewBounds m p h1 = calculateNewBounds m p h2 ∧
    calculateNewBounds m p h1 = normalizedRect m p := by
  rw [calculateNewBounds_eq_normalizedRect, calculateNewBounds_eq_normalizedRect]
  exact ⟨rfl, rfl⟩

theorem fracGcd_dvd_left (a b : ℤ) : fracGcd a b ∣ a := Int.gcd_dvd_left

theorem fracGcd_dvd_right (a b : ℤ) : fracGcd a b ∣ b := Int.gcd_dvd_right

theorem fracGcd_ne_zero (a b : ℤ) (hb : b ≠ 0) : fracGcd a b ≠ 0 := by
  intro h
  simp only [fracGcd] at h
  have h0 : Int.gcd a b = 0 := by exact_mod_cast h
  exact hb (Int.gcd_eq_zero_iff.mp h0).2

theorem getFloat_init (n d : ℤ) (hd : d ≠ 0) :
    (Fraction.init n d).getFloat = (n : ℚ) / (d : ℚ) := by
  have hgnz : fracGcd n d ≠ 0 := fracGcd_ne_zero n d hd
  have hdl : fracGcd n d ∣ n := fracGcd_dvd_left n d
  have hdr : fracGcd n d ∣ d := fracGcd_dvd_right n d
  simp only [Fraction.init, if_neg hgnz]
  obtain ⟨G, hG⟩ : ∃ G, fracGcd n d = G := ⟨_, rfl⟩
  rw [hG] at hgnz hdl hdr ⊢
  obtain ⟨n1, rfl⟩ := hdl
  obtain ⟨d1, rfl⟩ := hdr
  have hd1nz : d1 ≠ 0 := by
    intro h0
    exact hd (by rw [h0, mul_zero])
  have hgq : ((G : ℤ) : ℚ) ≠ 0 := Int.cast_ne_zero.mpr hgnz
  rw [Int.mul_ediv_cancel_left n1 hgnz, Int.mul_ediv_cancel_left d1 hgnz]
  have htail : (n1 : ℚ) / (d1 : ℚ) = ((G : ℚ) * n1) / ((G : ℚ) * d1) :=
    (mul_div_mul_left _ _ hgq).symm
  by_cases hcond : d1 < 0 ∨ (d1 = 0 ∧ n1 < 0)
  · rw [if_pos hcond, Fraction.getFloat]
    have hne : -d1 ≠ 0 := neg_ne_zero.mpr hd1nz
    simp only [if_neg hne]
    push_cast
    rw [neg_div_neg_eq]
    exact htail
  · rw [if_neg hcond, Fraction.getFloat]
    simp only [if_neg hd1nz]
    push_cast
    exact htail

theorem init_zero_den (n : ℤ) :
    (Fraction.init n 0).den = 0 ∧ ((Fraction.init n 0).num = if n = 0 then 0 else 1) := by
  by_cases hn : n = 0
  · subst hn
    exact ⟨rfl, rfl⟩
  · have hg : fracGcd n 0 = (n.natAbs : ℤ) := by
      simp [fracGcd, Int.gcd]
    have hgnz : fracGcd n 0 ≠ 0 := by
      rw [hg]
      exact_mod_cast Int.natAbs_ne_zero.mpr hn
    have hzero : (0 : ℤ) / fracGcd n 0 = 0 := Int.zero_ediv _
    have hq : n / fracGcd n 0 = if 0 < n then 1 else -1 := by
      rcases lt_or_gt_of_ne hn with hneg | hpos
      · have habs : ((n.natAbs : ℤ)) = -n := Int.ofNat_natAbs_of_nonpos (le_of_lt hneg)
        rw [hg, habs, Int.ediv_neg, Int.ediv_self hn, if_neg (not_lt.mpr (le_of_lt hneg))]
      · rw [hg, Int.natAbs_of_nonneg (le_of_lt hpos), Int.ediv_self hn, if_pos hpos]
    simp only [Fraction.init, if_neg hgnz, hzero, hq]
    rcases lt_or_gt_of_ne hn with hneg | hpos
    · rw [if_neg (not_lt.mpr (le_of_lt hneg))]
      norm_num [if_neg hn]
    · rw [if_pos hpos]
      norm_num [if_neg hn]

/-- C8 counterexample: the fraction built from numerator 5 and
denominator 0 does not collapse to a stored numerator of 0; simplify
divides by the gcd 5 and stores numerator 1. -/
theorem fraction_zero_den_numerator_cex :
    (Fraction.init 5 0).num = 1 ∧ (1 : ℤ) ≠ 0 := by
  constructor
  · decide
  · decide

/-- C8, amended: a zero denominator always yields stored denominator 0
and getFloat 0, but the stored numerator is 0 only for numerator 0 and
otherwise 1 after sign normalization; for a nonzero denominator,
getFloat is the quotient of the reduced representation, which equals
numerator over denominator. -/
theorem fraction_zero_den_behavior (n d : ℤ) (hd : d ≠ 0) :
    (Fraction.init n 0).den = 0 ∧
    (Fraction.init n 0).getFloat = 0 ∧
    ((Fraction.init n 0).num = if n = 0 then 0 else 1) ∧
    (Fraction.init n d).getFloat = (n : ℚ) / (d : ℚ) := by
  obtain ⟨hden, hnum⟩ := init_zero_den n
  refine ⟨hden, ?_, hnum, getFloat_init n d hd⟩
  rw [Fraction.getFloat, if_pos hden]

theorem fraction_zero_den_behavior_witness :
    (Fraction.init 5 0).den = 0 ∧
    (Fraction.init 5 0).getFloat = 0 ∧
    ((Fraction.init 5 0).num = if (5 : ℤ) = 0 then 0 else 1) ∧
    (Fraction.init 5 3).getFloat = ((5 : ℤ) : ℚ) / ((3 : ℤ) : ℚ) :=
  fraction_zero_den_behavior 5 3 (by decide)

/-- C3 counterexample: createCanvas with width -5 stores a canvas
record with width -5; nothing rejects or clamps the non-positive
dimension before the mutation. -/
theorem createCanvas_nonpositive_accepted_cex :
    (createCanvasOp "c1" (-5) 10 sampleBg []).2 = [⟨"c1", -5, 10, sampleBg, []⟩] ∧
    ¬ (0 < (-5 : ℚ)) := by
  constructor
  · rfl
  · decide

/-- C3, amended: createCanvas performs no validation at the store
boundary: for every width and height, including non-positive ones, it
appends a canvas record carrying exactly the given dimensions and an
empty layer sequence, and returns that canvas synchronously; no
rejection or clamping occurs. -/
theorem createCanvas_no_validation (freshId : String) (w h : ℚ) (bg : BackgroundConfig)
    (s : List CanvasRec) :
    (createCanvasOp freshId w h bg s).2 = s ++ [mkCanvas freshId w h bg] ∧
    (createCanvasOp freshId w h bg s).1 = mkCanvas freshId w h bg ∧
    (mkCanvas freshId w h bg).width = w ∧
    (mkCanvas freshId w h bg).height = h ∧
    (mkCanvas freshId w h bg).layers = [] :=
  ⟨rfl, rfl, rfl, rfl, rfl⟩

theorem yMapToLayer_fresh (f g : String) (d : LayerData) :
    yMapToLayer f d = yMapToLayer g d := rfl

theorem hydrateLayers_fresh (f g : ℕ → String) (ds : List LayerData) :
    ∀ (i j : ℕ), hydrateLayers f i ds = hydrateLayers g j ds := by
  induction ds with
  | nil => intro i j; rfl
  | cons d ds ih =>
    intro i j
    simp only [hydrateLayers]
    rw [ih (i + 1) (j + 1), yMapToLayer_fresh (f i) (g j) d]

theorem yMapToCanvas_fresh (f g : ℕ → String) (c : CanvasRec) :
    yMapToCanvas f c = yMapToCanvas g c := by
  simp only [yMapToCanvas, mkCanvas]
  rw [hydrateLayers_fresh f g c.layers 1 1]

theorem deriveAux_fresh (f1 f2 : ℕ → ℕ → String) (cs : List CanvasRec) :
    ∀ (i j : ℕ), deriveAux f1 i cs = deriveAux f2 j cs := by
  induction cs with
  | nil => intro i j; rfl
  | cons c cs ih =>
    intro i j
    simp only [deriveAux]
    rw [yMapToCanvas_fresh (f1 i) (f2 j) c, ih (i + 1) (j + 1)]

/-- C9: the derivation of the reactive bridge is a pure function of the
store snapshot.  Two runs on the same snapshot differ at most in the
fresh uuids their constructors draw, and every drawn uuid is overridden
by a stored id, so for any two uuid supplies the derived canvases, with
their resolved, ordered, hydrated layer lists, are structurally
identical. -/
theorem derive_rerun_identical (f1 f2 : ℕ → ℕ → String) (snap : List CanvasRec) :
    deriveCanvases f1 snap = deriveCanvases f2 snap :=
  deriveAux_fresh f1 f2 snap 0 0

theorem mget_mset {α : Type} (k k1 : String) (v : α) (m : List (String × α)) :
    mget k (mset k1 v m) = if k = k1 then some v else mget k m := by
  induction m with
  | nil =>
    by_cases h : k = k1
    · simp [mset, mget, h]
    · have h1 : ¬ k1 = k := fun hx => h hx.symm
      simp [mset, mget, h, h1]
  | cons p ps ih =>
    by_cases hp : p.1 = k1
    · by_cases h : k = k1
      · simp [mset, mget, hp, h]
      · have h1 : ¬ k1 = k := fun hx => h hx.symm
        have h2 : ¬ p.1 = k := by rw [hp]; exact h1
        simp only [mset, if_pos hp, mget, if_neg h, if_neg h1, if_neg h2]
    · simp only [mset, if_neg hp, mget]
      by_cases hpk : p.1 = k
      · have h3 : ¬ k = k1 := fun hx => hp (by rw [hpk, hx])
        rw [if_pos hpk, if_pos hpk, if_neg h3]
      · rw [if_neg hpk, if_neg hpk, ih]

theorem mget_eq_none {α : Type} (k : String) (m : List (String × α))
    (h : k ∉ m.map Prod.fst) : mget k m = none := by
  induction m with
  | nil => rfl
  | cons p ps ih =>
    simp only [List.map_cons, List.mem_cons] at h
    push_neg at h
    simp only [mget]
    rw [if_neg (fun h1 => h.1 h1.symm)]
    exact ih h.2

theorem mget_mdel_self {α : Type} (k : String) (m : List (String × α))
    (h : (m.map Prod.fst).Nodup) : mget k (mdel k m) = none := by
  induction m with
  | nil => rfl
  | cons p ps ih =>
    simp only [List.map_cons, List.nodup_cons] at h
    by_cases hp : p.1 = k
    · simp only [mdel, if_pos hp]
      exact mget_eq_none k ps (hp ▸ h.1)
    · simp only [mdel, if_neg hp, mget, if_neg hp]
      exact ih h.2

theorem removeFirstById_of_not_mem (layerId : String) (ls : List LayerData)
    (h : ∀ x ∈ ls, x.id ≠ layerId) : removeFirstById layerId ls = ls := by
  induction ls with
  | nil => rfl
  | cons l ls ih =>
    simp only [removeFirstById]
    rw [if_neg (h l (List.mem_cons_self l ls))]
    rw [ih (fun x hx => h x (List.mem_cons_of_mem l hx))]

theorem setFirstById_of_not_mem (layerId : String) (f : LayerData → LayerData)
    (ls : List LayerData) (h : ∀ x ∈ ls, x.id ≠ layerId) : setFirstById layerId f ls = ls := by
  induction ls with
  | nil => rfl
  | cons l ls ih =>
    simp only [setFirstById]
    rw [if_neg (h l (List.mem_cons_self l ls))]
    rw [ih (fun x hx => h x (List.mem_cons_of_mem l hx))]

theorem idxOf?_of_not_mem (layerId : String) (ls : List LayerData)
    (h : ∀ x ∈ ls, x.id ≠ layerId) : idxOf? layerId ls = none := by
  induction ls with
  | nil => rfl
  | cons l ls ih =>
    simp only [idxOf?]
    rw [if_neg (h l (List.mem_cons_self l ls))]
    rw [ih (fun x hx => h x (List.mem_cons_of_mem l hx))]
    rfl

theorem canvasIdx?_singleton (c : CanvasRec) : canvasIdx? c.id [c] = some 0 := by
  simp [canvasIdx?]

theorem updCanvasAt_singleton (c : CanvasRec) (f : CanvasRec → CanvasRec) :
    updCanvasAt [c] 0 f = [f c] := rfl

/-- C2 counterexample: in the normalized layout, addLayer with a canvas
id unknown to the document is not a no-op: starting from the empty
document, it stores the layer record under its id and creates a
sequence entry for the unknown canvas id holding that layer id. -/
theorem addLayer_unknown_canvas_mutates_cex :
    mget "c1" (YDocState.mk [] [] []).canvasMap = none ∧
    (addLayerY "c1" sampleLayer (YDocState.mk [] [] [])).canvasLayers = [("c1", ["l1"])] ∧
    (addLayerY "c1" sampleLayer (YDocState.mk [] [] [])).layerArrays = [("l1", [sampleLayer])] ∧
    addLayerY "c1" sampleLayer (YDocState.mk [] [] []) ≠ YDocState.mk [] [] [] := by
  refine ⟨rfl, ?_, ?_, ?_⟩
  · simp [addLayerY, addLayerToCanvasInYjs, updateLayerInYjs, mget, mset, sampleLayer]
  · simp [addLayerY, addLayerToCanvasInYjs, updateLayerInYjs, mget, mset, sampleLayer]
  · intro h
    have := congrArg YDocState.layerArrays h
    simp [addLayerY, addLayerToCanvasInYjs, updateLayerInYjs, mset, sampleLayer] at this

/-- C2, amended: in the nested layout every store operation invoked
with an unknown canvas id, or with an unknown layer id on an existing
canvas, is a silent no-op leaving the document unchanged; in the
normalized layout, however, addLayer with an unknown canvas id is not a
no-op: it stores the layer record and creates a fresh sequence entry
under the unknown canvas id containing exactly the new layer id. -/
theorem storeOps_unknown_id_behavior
    (canvasId layerId : String) (l : LayerData) (u : LayerUpdate)
    (s : List CanvasRec) (sy : YDocState) (c : CanvasRec)
    (hn : canvasIdx? canvasId s = none)
    (hcl : mget canvasId sy.canvasLayers = none)
    (hmem : ∀ ld ∈ c.layers, ld.id ≠ layerId) :
    addLayerN canvasId l s = s ∧
    removeLayerN canvasId layerId s = s ∧
    updateLayerN canvasId layerId u s = s ∧
    moveLayerUpN canvasId layerId s = s ∧
    moveLayerDownN canvasId layerId s = s ∧
    removeLayerN c.id layerId [c] = [c] ∧
    updateLayerN c.id layerId u [c] = [c] ∧
    moveLayerUpN c.id layerId [c] = [c] ∧
    moveLayerDownN c.id layerId [c] = [c] ∧
    mget l.id (addLayerY canvasId l sy).layerArrays = some [l] ∧
    mget canvasId (addLayerY canvasId l sy).canvasLayers = some [l.id] := by
  refine ⟨?_, ?_, ?_, ?_, ?_, ?_, ?_, ?_, ?_, ?_, ?_⟩
  · simp [addLayerN, hn]
  · simp [removeLayerN, hn]
  · simp [updateLayerN, hn]
  · simp [moveLayerUpN, hn]
  · simp [moveLayerDownN, hn]
  · simp only [removeLayerN, canvasIdx?_singleton, updCanvasAt_singleton]
    rw [removeFirstById_of_not_mem layerId c.layers hmem]
  · simp only [updateLayerN, canvasIdx?_singleton, updCanvasAt_singleton]
    rw [setFirstById_of_not_mem layerId (applyUpdate u) c.layers hmem]
  · simp only [moveLayerUpN, canvasIdx?_singleton, updCanvasAt_singleton, moveUpL,
      idxOf?_of_not_mem layerId c.layers hmem]
  · simp only [moveLayerDownN, canvasIdx?_singleton, updCanvasAt_singleton, moveDownL,
      idxOf?_of_not_mem layerId c.layers hmem]
  · simp only [addLayerY, addLayerToCanvasInYjs, updateLayerInYjs]
    rw [mget_mset, if_pos rfl]
  · simp only [addLayerY, addLayerToCanvasInYjs, updateLayerInYjs, hcl]
    rw [mget_mset, if_pos rfl]
    rfl

theorem storeOps_unknown_id_behavior_witness :
    addLayerN "c2" sampleLayer [sampleCanvas] = [sampleCanvas] ∧
    removeLayerN "c2" "lx" [sampleCanvas] = [sampleCanvas] ∧
    updateLayerN "c2" "lx" (LayerUpdate.mk none none none) [sampleCanvas] = [sampleCanvas] ∧
    moveLayerUpN "c2" "lx" [sampleCanvas] = [sampleCanvas] ∧
    moveLayerDownN "c2" "lx" [sampleCanvas] = [sampleCanvas] ∧
    removeLayerN sampleCanvas.id "lx" [sampleCanvas] = [sampleCanvas] ∧
    updateLayerN sampleCanvas.id "lx" (LayerUpdate.mk none none none) [sampleCanvas] =
      [sampleCanvas] ∧
    moveLayerUpN sampleCanvas.id "lx" [sampleCanvas] = [sampleCanvas] ∧
    moveLayerDownN sampleCanvas.id "lx" [sampleCanvas] = [sampleCanvas] ∧
    mget sampleLayer.id (addLayerY "c2" sampleLayer sampleDoc).layerArrays =
      some [sampleLayer] ∧
    mget "c2" (addLayerY "c2" sampleLayer sampleDoc).canvasLayers = some [sampleLayer.id] :=
  storeOps_unknown_id_behavior "c2" "lx" sampleLayer (LayerUpdate.mk none none none)
    [sampleCanvas] sampleDoc sampleCanvas
    (by simp [canvasIdx?, sampleCanvas])
    (by simp [sampleDoc, mget])
    (by simp [sampleCanvas, sampleLayer])

theorem mget_clearArrays (k : String) (lids : List String)
    (m : List (String × List LayerData)) :
    mget k (clearArrays lids m) = if k ∈ lids then some [] else mget k m := by
  induction lids generalizing m with
  | nil => simp [clearArrays]
  | cons a as ih =>
    simp only [clearArrays]
    rw [ih (mset a [] m)]
    by_cases hk : k ∈ as
    · rw [if_pos hk, if_pos (List.mem_cons_of_mem a hk)]
    · rw [if_neg hk, mget_mset]
      by_cases hka : k = a
      · rw [if_pos hka, if_pos (by rw [hka]; exact List.mem_cons_self a as)]
      · rw [if_neg hka, if_neg (by simp [List.mem_cons, hka, hk])]

/-- C5 counterexample: deleting the sample canvas from the normalized
document removes its metadata record but leaves the layer-id sequence
record of the deleted canvas in place: the canvas-to-layer-ids map
still answers the deleted id with its old sequence. -/
theorem deleteCanvas_leaves_sequence_cex :
    mget "c1" (deleteCanvasY "c1" sampleDoc).canvasMap = none ∧
    mget "c1" (deleteCanvasY "c1" sampleDoc).canvasLayers = some ["l1"] ∧
    (mget "c1" (deleteCanvasY "c1" sampleDoc).canvasLayers ≠ none) := by
  refine ⟨?_, ?_, ?_⟩
  · simp [deleteCanvasY, sampleDoc, mget, mdel, clearArrays, mset, sampleMeta]
  · simp [deleteCanvasY, sampleDoc, mget, mdel, clearArrays, mset, sampleMeta]
  · simp [deleteCanvasY, sampleDoc, mget, mdel, clearArrays, mset, sampleMeta]

/-- C5, amended: for a known canvas id, deleteCanvas in the normalized
layout removes the canvas metadata record and empties every layer
record referenced by the sequence of the canvas, but it does not remove
the layer-id sequence record: the canvas-to-layer-ids map is left
untouched; deleteCanvas with an unknown id is a no-op. -/
theorem deleteCanvas_behavior (sy : YDocState) (canvasId : String) (meta : CanvasMeta)
    (hnd : (sy.canvasMap.map Prod.fst).Nodup)
    (hm : mget canvasId sy.canvasMap = some meta) :
    mget canvasId (deleteCanvasY canvasId sy).canvasMap = none ∧
    (deleteCanvasY canvasId sy).canvasLayers = sy.canvasLayers ∧
    (∀ lid ∈ (mget canvasId sy.canvasLayers).getD [],
      (mget lid (deleteCanvasY canvasId sy).layerArrays).getD [] = []) ∧
    (∀ cid2 : String, mget cid2 sy.canvasMap = none → deleteCanvasY cid2 sy = sy) := by
  have hred : deleteCanvasY canvasId sy =
      YDocState.mk (mdel canvasId sy.canvasMap) sy.canvasLayers
        (clearArrays
          (((mget canvasId sy.canvasLayers).getD []).filter
            (fun lid => !((mget lid sy.layerArrays).getD []).isEmpty))
          sy.layerArrays) := by
    simp only [deleteCanvasY, hm]
  refine ⟨?_, ?_, ?_, ?_⟩
  · rw [hred]
    exact mget_mdel_self canvasId sy.canvasMap hnd
  · rw [hred]
  · intro lid hlid
    rw [hred]
    simp only
    rw [mget_clearArrays]
    by_cases hmem2 : lid ∈ ((mget canvasId sy.canvasLayers).getD []).filter
        (fun lid => !((mget lid sy.layerArrays).getD []).isEmpty)
    · rw [if_pos hmem2]
      rfl
    · rw [if_neg hmem2]
      rcases hl : (mget lid sy.layerArrays).getD [] with _ | ⟨x, xs⟩
      · rfl
      · exact absurd (List.mem_filter.mpr ⟨hlid, by simp [hl]⟩) hmem2
  · intro cid2 h0
    simp only [deleteCanvasY, h0]

theorem deleteCanvas_behavior_witness :
    mget "c1" (deleteCanvasY "c1" sampleDoc).canvasMap = none ∧
    (deleteCanvasY "c1" sampleDoc).canvasLayers = sampleDoc.canvasLayers ∧
    (∀ lid ∈ (mget "c1" sampleDoc.canvasLayers).getD [],
      (mget lid (deleteCanvasY "c1" sampleDoc).layerArrays).getD [] = []) ∧
    (∀ cid2 : String, mget cid2 sampleDoc.canvasMap = none →
      deleteCanvasY cid2 sampleDoc = sampleDoc) :=
  deleteCanvas_behavior sampleDoc "c1" sampleMeta
    (by simp [sampleDoc])
    (by simp [sampleDoc, mget])

theorem idxOf?_append_cons (pre : List LayerData) (a : LayerData) (post : List LayerData)
    (layerId : String) (ha : a.id = layerId) (hpre : ∀ x ∈ pre, x.id ≠ layerId) :
    idxOf? layerId (pre ++ a :: post) = some pre.length := by
  induction pre with
  | nil => simp [idxOf?, ha]
  | cons x xs ih =>
    simp only [List.cons_append, idxOf?, List.append_eq]
    rw [if_neg (hpre x (List.mem_cons_self x xs))]
    rw [ih (fun y hy => hpre y (List.mem_cons_of_mem x hy))]
    simp

theorem getElem?_append_cons (pre : List LayerData) (a : LayerData) (post : List LayerData) :
    (pre ++ a :: post)[pre.length]? = some a := by
  induction pre with
  | nil => simp
  | cons x xs ih => simpa using ih

theorem eraseIdx_append_cons (pre : List LayerData) (a : LayerData) (post : List LayerData) :
    (pre ++ a :: post).eraseIdx pre.length = pre ++ post := by
  induction pre with
  | nil => rfl
  | cons x xs ih =>
    simp only [List.cons_append, List.length_cons, List.eraseIdx, List.append_eq]
    rw [ih]

theorem insertIdx_append_cons (pre : List LayerData) (a : LayerData) (post : List LayerData) :
    (pre ++ post).insertIdx pre.length a = pre ++ a :: post := by
  induction pre with
  | nil => rfl
  | cons x xs ih =>
    simp only [List.cons_append, List.length_cons]
    rw [List.insertIdx_succ_cons, ih]

theorem moveUpL_swap (layerId : String) (pre : List LayerData) (a b : LayerData)
    (post : List LayerData) (ha : a.id = layerId) (hpre : ∀ x ∈ pre, x.id ≠ layerId) :
    moveUpL layerId (pre ++ a :: b :: post) = pre ++ b :: a :: post := by
  simp only [moveUpL, idxOf?_append_cons pre a (b :: post) layerId ha hpre,
    getElem?_append_cons pre a (b :: post)]
  have hlen : pre.length < (pre ++ a :: b :: post).length - 1 := by
    simp [List.length_append]
  rw [if_pos hlen, eraseIdx_append_cons pre a (b :: post)]
  have h1 : pre ++ b :: post = (pre ++ [b]) ++ post := by simp
  have h2 : pre.length + 1 = (pre ++ [b]).length := by simp
  rw [h1, h2, insertIdx_append_cons (pre ++ [b]) a post]
  simp

theorem moveUpL_last (layerId : String) (pre : List LayerData) (a : LayerData)
    (ha : a.id = layerId) (hpre : ∀ x ∈ pre, x.id ≠ layerId) :
    moveUpL layerId (pre ++ [a]) = pre ++ [a] := by
  simp only [moveUpL, idxOf?_append_cons pre a [] layerId ha hpre,
    getElem?_append_cons pre a []]
  have hlen : ¬ (pre.length < (pre ++ [a]).length - 1) := by
    simp [List.length_append]
  rw [if_neg hlen]

theorem moveDownL_swap (layerId : String) (pre : List LayerData) (b a : LayerData)
    (post : List LayerData) (ha : a.id = layerId) (hb : b.id ≠ layerId)
    (hpre : ∀ x ∈ pre, x.id ≠ layerId) :
    moveDownL layerId (pre ++ b :: a :: post) = pre ++ a :: b :: post := by
  have hpre2 : ∀ x ∈ pre ++ [b], x.id ≠ layerId := by
    intro x hx
    rcases List.mem_append.mp hx with h | h
    · exact hpre x h
    · rw [List.mem_singleton.mp h]
      exact hb
  have h1 : idxOf? layerId (pre ++ b :: a :: post) = some (pre.length + 1) := by
    have h0 := idxOf?_append_cons (pre ++ [b]) a post layerId ha hpre2
    simpa using h0
  have h2 : (pre ++ b :: a :: post)[pre.length + 1]? = some a := by
    have h0 := getElem?_append_cons (pre ++ [b]) a post
    simpa using h0
  simp only [moveDownL, h1, h2]
  rw [if_pos (Nat.succ_pos _)]
  have h3 : (pre ++ b :: a :: post).eraseIdx (pre.length + 1) = pre ++ b :: post := by
    have h0 := eraseIdx_append_cons (pre ++ [b]) a post
    simpa using h0
  rw [h3]
  simpa using insertIdx_append_cons pre a (b :: post)

theorem moveDownL_first (layerId : String) (a : LayerData) (post : List LayerData)
    (ha : a.id = layerId) : moveDownL layerId (a :: post) = a :: post := by
  simp only [moveDownL, idxOf?, if_pos ha, List.getElem?_cons_zero]
  rw [if_neg (lt_irrefl 0)]

/-- C6, amended: in the nested layout each moveLayer swaps the target
id with its immediate neighbour in the requested direction, is a no-op
at the sequence boundary, and a moveLayer up immediately followed by a
moveLayer down on the same id restores the sequence to exactly its
original order, also through the store-level operations on a canvas
holding that sequence.  In the normalized layout, however, each
moveLayer rebuilds the id list from the layerOrder-sorted hydrated
layer list of the canvas, swaps the found position with its neighbour
there, and overwrites the stored sequence with the result — the swap
acts on the derived sorted order, never on the stored sequence, so a
moveLayer up followed by a moveLayer down need not restore it. -/
theorem moveLayer_up_down_inverse (pre post : List LayerData) (a b : LayerData)
    (layerId : String) (c : CanvasRec)
    (ha : a.id = layerId)
    (hb : b.id ≠ layerId)
    (hpre : ∀ x ∈ pre, x.id ≠ layerId)
    (hcl : c.layers = pre ++ a :: b :: post) :
    moveUpL layerId (pre ++ a :: b :: post) = pre ++ b :: a :: post ∧
    moveDownL layerId (moveUpL layerId (pre ++ a :: b :: post)) = pre ++ a :: b :: post ∧
    moveUpL layerId (pre ++ [a]) = pre ++ [a] ∧
    moveDownL layerId (a :: post) = a :: post ∧
    moveLayerDownN c.id layerId (moveLayerUpN c.id layerId [c]) = [c] ∧
    (∀ (sy : YDocState) (m : CanvasMeta) (i : ℕ),
      mget c.id sy.canvasMap = some m →
      idxOf? layerId (hydrateLayersY sy c.id) = some i →
      ¬ i = (hydrateLayersY sy c.id).length - 1 →
      (moveLayerUpY c.id layerId sy).canvasMap = sy.canvasMap ∧
      (moveLayerUpY c.id layerId sy).layerArrays = sy.layerArrays ∧
      (moveLayerUpY c.id layerId sy).canvasLayers =
        mset c.id (swapAdj i ((hydrateLayersY sy c.id).map LayerData.id)) sy.canvasLayers) ∧
    (∀ (sy : YDocState) (m : CanvasMeta) (i : ℕ),
      mget c.id sy.canvasMap = some m →
      idxOf? layerId (hydrateLayersY sy c.id) = some i →
      ¬ i = 0 →
      (moveLayerDownY c.id layerId sy).canvasMap = sy.canvasMap ∧
      (moveLayerDownY c.id layerId sy).layerArrays = sy.layerArrays ∧
      (moveLayerDownY c.id layerId sy).canvasLayers =
        mset c.id (swapAdj (i - 1) ((hydrateLayersY sy c.id).map LayerData.id))
          sy.canvasLayers) := by
  have h1 := moveUpL_swap layerId pre a b post ha hpre
  have h2 := moveDownL_swap layerId pre b a post ha hb hpre
  refine ⟨h1, by rw [h1]; exact h2, moveUpL_last layerId pre a ha hpre,
    moveDownL_first layerId a post ha, ?_, ?_, ?_⟩
  · have hysingle :
        canvasIdx? c.id [{ c with layers := pre ++ b :: a :: post }] = some 0 := by
      simp [canvasIdx?]
    simp only [moveLayerUpN, canvasIdx?_singleton, updCanvasAt_singleton, hcl, h1]
    simp only [moveLayerDownN, hysingle, updCanvasAt_singleton, h2]
    rw [← hcl]
  · intro sy m i hm hi hguard
    simp only [moveLayerUpY, hm, hi, if_neg hguard]
    exact ⟨trivial, trivial, trivial⟩
  · intro sy m i hm hi hguard
    simp only [moveLayerDownY, hm, hi, if_neg hguard]
    exact ⟨trivial, trivial, trivial⟩

theorem moveLayer_up_down_inverse_witness :
    moveDownL "l1" (moveUpL "l1" ([sampleLayer0] ++ sampleLayer :: sampleLayer2 :: [])) =
      [sampleLayer0] ++ sampleLayer :: sampleLayer2 :: [] ∧
    moveLayerDownN sampleCanvas9.id "l1" (moveLayerUpN sampleCanvas9.id "l1" [sampleCanvas9]) =
      [sampleCanvas9] :=
  have h := moveLayer_up_down_inverse [sampleLayer0] [] sampleLayer sampleLayer2 "l1"
    sampleCanvas9 (by simp [sampleLayer]) (by simp [sampleLayer2]) (by simp [sampleLayer0]) rfl
  ⟨h.2.1, h.2.2.2.2.1⟩

/-- C6 counterexample: in the normalized layout, on a store whose
canvas holds the stored sequence l0, l1, l2 with layerOrder keys
0, 0, 2, a moveLayer up on l1 writes the sequence l0, l2, l1, and the
immediately following moveLayer down on l1 rebuilds its id list from
the layerOrder-sorted derived list l0, l1, l2 rather than from the
stored sequence and writes l1, l0, l2 — the stored sequence is not
restored to its original order. -/
theorem moveLayer_normalized_not_restored_cex :
    mget "c3" sampleDoc3.canvasLayers = some ["l0", "l1", "l2"] ∧
    mget "c3" (moveLayerUpY "c3" "l1" sampleDoc3).canvasLayers = some ["l0", "l2", "l1"] ∧
    mget "c3" (moveLayerDownY "c3" "l1" (moveLayerUpY "c3" "l1" sampleDoc3)).canvasLayers =
      some ["l1", "l0", "l2"] ∧
    mget "c3" (moveLayerDownY "c3" "l1" (moveLayerUpY "c3" "l1" sampleDoc3)).canvasLayers ≠
      mget "c3" sampleDoc3.canvasLayers := by
  refine ⟨rfl, ?_, ?_, ?_⟩ <;>
    simp [moveLayerUpY, moveLayerDownY, hydrateLayersY, sampleDoc3, mget, mset,
      sortByOrder, insertByOrder, idxOf?, swapAdj, sampleLayer0, sampleLayer, sampleLayer2]

theorem resizeAspect_ratio (r : ℚ) (bl tr : Pt) (hr : 0 < r)
    (hw : tr.x ≠ bl.x) (hh : tr.y ≠ bl.y) :
    wOf (resizeAspect r bl tr) = r * hOf (resizeAspect r bl tr) ∧
    hOf (resizeAspect r bl tr) ≠ 0 := by
  have hwpos : 0 < |tr.x - bl.x| := abs_pos.mpr (sub_ne_zero_of_ne hw)
  have hhpos : 0 < |tr.y - bl.y| := abs_pos.mpr (sub_ne_zero_of_ne hh)
  have hhne : |tr.y - bl.y| ≠ 0 := ne_of_gt hhpos
  simp only [resizeAspect]
  by_cases hc1 : |tr.x - bl.x| / |tr.y - bl.y| > r
  · rw [if_pos (Or.inr ⟨hhne, hc1⟩)]
    have habs : |(|tr.y - bl.y| * r)| = |tr.y - bl.y| * r :=
      abs_of_nonneg (mul_nonneg (le_of_lt hhpos) (le_of_lt hr))
    by_cases hbx : bl.x < tr.x
    · rw [if_pos hbx]
      constructor
      · simp only [wOf, hOf, add_sub_cancel_left]
        rw [habs, mul_comm]
      · simp only [hOf]
        exact hhne
    · rw [if_neg hbx]
      constructor
      · simp only [wOf, hOf, sub_add_cancel_left, abs_neg]
        rw [habs, mul_comm]
      · simp only [hOf]
        exact hhne
  · by_cases hc2 : |tr.x - bl.x| / |tr.y - bl.y| < r
    · rw [if_neg ?hno, if_pos ⟨hhne, hc2⟩]
      case hno =>
        rintro (⟨h0, _⟩ | ⟨_, hgt⟩)
        · exact hhne h0
        · exact hc1 hgt
      have hdivpos : 0 < |tr.x - bl.x| / r := div_pos hwpos hr
      have habs : |(|tr.x - bl.x| / r)| = |tr.x - bl.x| / r := abs_of_pos hdivpos
      by_cases hby : bl.y < tr.y
      · rw [if_pos hby]
        constructor
        · simp only [wOf, hOf, add_sub_cancel_left]
          rw [habs, mul_comm, div_mul_cancel₀ _ (ne_of_gt hr)]
        · simp only [hOf, add_sub_cancel_left]
          rw [habs]
          exact ne_of_gt hdivpos
      · rw [if_neg hby]
        constructor
        · simp only [wOf, hOf, sub_add_cancel_left, abs_neg]
          rw [habs, mul_comm, div_mul_cancel₀ _ (ne_of_gt hr)]
        · simp only [hOf, sub_add_cancel_left, abs_neg]
          rw [habs]
          exact ne_of_gt hdivpos
    · rw [if_neg ?hno2, if_neg ?hno3]
      case hno2 =>
        rintro (⟨h0, _⟩ | ⟨_, hgt⟩)
        · exact hhne h0
        · exact hc1 hgt
      case hno3 =>
        rintro ⟨_, hlt⟩
        exact hc2 hlt
      have heq : |tr.x - bl.x| / |tr.y - bl.y| = r :=
        le_antisymm (not_lt.mp hc1) (not_lt.mp hc2)
      constructor
      · simp only [wOf, hOf]
        rw [← heq, div_mul_cancel₀ _ hhne]
      · simp only [hOf]
        exact hhne

/-- C4 counterexample: an aspect-locked resize with original ratio two,
handle index one and the mouse exactly on the vertical pivot axis
collapses the rectangle to a point: the resulting width over height is
not the original ratio for this mouse position. -/
theorem lockedResize_degenerate_cex :
    lockedResize 2 1 ⟨0, 5⟩ ⟨0, 0⟩ 1 = (⟨0, 0⟩, ⟨0, 0⟩) ∧
    wOf (lockedResize 2 1 ⟨0, 5⟩ ⟨0, 0⟩ 1) / hOf (lockedResize 2 1 ⟨0, 5⟩ ⟨0, 0⟩ 1) ≠
      ((2 : ℤ) : ℚ) / ((1 : ℤ) : ℚ) := by
  have h1 : lockedResize 2 1 ⟨0, 5⟩ ⟨0, 0⟩ 1 = (⟨0, 0⟩, ⟨0, 0⟩) := by
    norm_num [lockedResize, calculateNewBounds, normPair, layerResize, aspectFloat,
      Fraction.init, Fraction.getFloat, fracGcd, resizeAspect]
  refine ⟨h1, ?_⟩
  rw [h1]
  norm_num [wOf, hOf]

/-- C4, amended: for positive original dimensions and any handle index,
the aspect-locked resize preserves the original ratio exactly whenever
the mouse position lies strictly off both pivot axes: the resulting
width equals ratio times height, the height is nonzero, and width over
height is the original ratio.  On a pivot axis the rectangle collapses
and the ratio is lost, as the counterexample shows. -/
theorem lockedResize_ratio_preserved (oriW oriH : ℤ) (mouse pivot : Pt) (hIdx : ℕ)
    (hW : 0 < oriW) (hH : 0 < oriH) (hx : mouse.x ≠ pivot.x) (hy : mouse.y ≠ pivot.y) :
    wOf (lockedResize oriW oriH mouse pivot hIdx) =
      ((oriW : ℚ) / (oriH : ℚ)) * hOf (lockedResize oriW oriH mouse pivot hIdx) ∧
    hOf (lockedResize oriW oriH mouse pivot hIdx) ≠ 0 ∧
    wOf (lockedResize oriW oriH mouse pivot hIdx) /
      hOf (lockedResize oriW oriH mouse pivot hIdx) = (oriW : ℚ) / (oriH : ℚ) := by
  have hWq : (0 : ℚ) < (oriW : ℚ) := by exact_mod_cast hW
  have hHq : (0 : ℚ) < (oriH : ℚ) := by exact_mod_cast hH
  have hrpos : 0 < (oriW : ℚ) / (oriH : ℚ) := div_pos hWq hHq
  have hratio : aspectFloat oriW oriH = (oriW : ℚ) / (oriH : ℚ) :=
    getFloat_init oriW oriH (ne_of_gt hH)
  have hb : calculateNewBounds mouse pivot hIdx = normalizedRect mouse pivot :=
    calculateNewBounds_eq_normalizedRect mouse pivot hIdx
  have hxx : (normalizedRect mouse pivot).2.x ≠ (normalizedRect mouse pivot).1.x :=
    ne_of_gt (min_lt_max.mpr hx)
  have hyy : (normalizedRect mouse pivot).2.y ≠ (normalizedRect mouse pivot).1.y :=
    ne_of_lt (min_lt_max.mpr hy)
  have hmain := resizeAspect_ratio ((oriW : ℚ) / (oriH : ℚ))
    (normalizedRect mouse pivot).1 (normalizedRect mouse pivot).2 hrpos hxx hyy
  have hred : lockedResize oriW oriH mouse pivot hIdx =
      resizeAspect ((oriW : ℚ) / (oriH : ℚ)) (normalizedRect mouse pivot).1
        (normalizedRect mouse pivot).2 := by
    simp only [lockedResize, layerResize, hb, hratio, if_pos]
  rw [hred]
  refine ⟨hmain.1, hmain.2, ?_⟩
  rw [hmain.1, mul_div_assoc, div_self hmain.2, mul_one]

theorem lockedResize_ratio_preserved_witness :
    wOf (lockedResize 2 1 ⟨4, 1⟩ ⟨0, 0⟩ 1) / hOf (lockedResize 2 1 ⟨4, 1⟩ ⟨0, 0⟩ 1) =
      ((2 : ℤ) : ℚ) / ((1 : ℤ) : ℚ) :=
  (lockedResize_ratio_preserved 2 1 ⟨4, 1⟩ ⟨0, 0⟩ 1 (by norm_num) (by norm_num)
    (by show (4 : ℚ) ≠ (0 : ℚ); norm_num) (by show (1 : ℚ) ≠ (0 : ℚ); norm_num)).2.2

theorem lastOf_cons {α : Type} (a : α) (l : List α) : ∃ v, lastOf (a :: l) = some v := by
  induction l generalizing a with
  | nil => exact ⟨a, rfl⟩
  | cons b bs ih => simpa [lastOf] using ih b

theorem updateDragPosition_run (now : ℤ) (mouse : Pt) (t : ℤ) (lid : String) (sp : Pt)
    (ib : Pt × Pt) (cb : Option (Pt × Pt)) :
    (updateDragPosition now mouse ⟨true, t, ⟨some lid, some sp, some ib, cb⟩⟩).1 =
      ⟨true, if 16 ≤ now - t then now else t,
        ⟨some lid, some sp, some ib, some (dragBoundsOf sp ib mouse)⟩⟩ := by
  simp only [updateDragPosition]
  by_cases hth : 16 ≤ now - t
  · rw [if_pos hth, if_pos hth]
  · rw [if_neg hth, if_neg hth]

theorem runDragMoves_char (samples : List (ℤ × Pt)) :
    ∀ (t : ℤ) (lid : String) (sp : Pt) (ib : Pt × Pt) (cb : Option (Pt × Pt)),
    ∃ t2 : ℤ,
      runDragMoves ⟨true, t, ⟨some lid, some sp, some ib, cb⟩⟩ samples =
        ⟨true, t2, ⟨some lid, some sp, some ib,
          match lastOf samples with
          | none => cb
          | some s => some (dragBoundsOf sp ib s.2)⟩⟩ := by
  induction samples with
  | nil =>
    intro t lid sp ib cb
    exact ⟨t, rfl⟩
  | cons s rest ih =>
    intro t lid sp ib cb
    simp only [runDragMoves]
    rw [updateDragPosition_run s.1 s.2 t lid sp ib cb]
    cases rest with
    | nil => exact ⟨if 16 ≤ s.1 - t then s.1 else t, rfl⟩
    | cons r2 rs =>
      obtain ⟨v, hv⟩ := lastOf_cons r2 rs
      obtain ⟨t2, ht2⟩ := ih (if 16 ≤ s.1 - t then s.1 else t) lid sp ib
        (some (dragBoundsOf sp ib s.2))
      refine ⟨t2, ?_⟩
      rw [ht2]
      simp only [lastOf, hv]

theorem dragSessionCommit_char (l : LayerData) (sm : Pt) (samples : List (ℤ × Pt)) :
    dragSessionCommit l sm samples =
      match lastOf samples with
      | none => none
      | some s => some (l.id, (dragBoundsOf sm (l.bottomLeft, l.topRight) s.2).1,
          (dragBoundsOf sm (l.bottomLeft, l.topRight) s.2).2) := by
  obtain ⟨t2, ht2⟩ :=
    runDragMoves_char samples 0 l.id sm (l.bottomLeft, l.topRight) none
  simp only [dragSessionCommit, startDragging, dragInit]
  rw [ht2]
  cases hls : lastOf samples with
  | none => simp [endDragging]
  | some v => simp [endDragging]

theorem updateResizePosition_run (now : ℤ) (mouse : Pt) (shift : Bool) (t : ℤ) (ah : ℕ)
    (lid : String) (hIdx : ℕ) (ib : Pt × Pt) (cb : Option (Pt × Pt)) (mar : Bool)
    (ratio0 : Option ℚ) :
    (updateResizePosition now mouse shift
        ⟨true, some ah, t, ⟨some lid, some hIdx, some ib, cb, mar, ratio0⟩⟩).1 =
      ⟨true, some ah, if 16 ≤ now - t then now else t,
        ⟨some lid, some hIdx, some ib,
          some (resizeSampleBounds ib hIdx ratio0 mouse shift), shift, ratio0⟩⟩ := by
  simp only [updateResizePosition]
  by_cases hth : 16 ≤ now - t
  · rw [if_pos hth, if_pos hth]
  · rw [if_neg hth, if_neg hth]

theorem runResizeMoves_char (samples : List (ℤ × Pt × Bool)) :
    ∀ (t : ℤ) (ah : ℕ) (lid : String) (hIdx : ℕ) (ib : Pt × Pt) (cb : Option (Pt × Pt))
      (mar : Bool) (ratio0 : Option ℚ),
    ∃ t2 : ℤ,
      runResizeMoves ⟨true, some ah, t, ⟨some lid, some hIdx, some ib, cb, mar, ratio0⟩⟩
          samples =
        ⟨true, some ah, t2, ⟨some lid, some hIdx, some ib,
          (match lastOf samples with
           | none => cb
           | some s => some (resizeSampleBounds ib hIdx ratio0 s.2.1 s.2.2)),
          (match lastOf samples with
           | none => mar
           | some s => s.2.2), ratio0⟩⟩ := by
  induction samples with
  | nil =>
    intro t ah lid hIdx ib cb mar ratio0
    exact ⟨t, rfl⟩
  | cons s rest ih =>
    intro t ah lid hIdx ib cb mar ratio0
    simp only [runResizeMoves]
    rw [updateResizePosition_run s.1 s.2.1 s.2.2 t ah lid hIdx ib cb mar ratio0]
    cases rest with
    | nil => exact ⟨if 16 ≤ s.1 - t then s.1 else t, rfl⟩
    | cons r2 rs =>
      obtain ⟨v, hv⟩ := lastOf_cons r2 rs
      obtain ⟨t2, ht2⟩ := ih (if 16 ≤ s.1 - t then s.1 else t) ah lid hIdx ib
        (some (resizeSampleBounds ib hIdx ratio0 s.2.1 s.2.2)) s.2.2 ratio0
      refine ⟨t2, ?_⟩
      rw [ht2]
      simp only [lastOf, hv]

theorem resizeSessionCommit_char (l : LayerData) (hIdx : ℕ) (shift0 : Bool)
    (samples : List (ℤ × Pt × Bool)) :
    resizeSessionCommit l hIdx shift0 samples =
      match lastOf samples with
      | none => none
      | some s => some (l.id,
          (resizeSampleBounds (l.bottomLeft, l.topRight) hIdx
            (if shift0 then some (aspectFloat l.oriWidth l.oriHeight) else none)
            s.2.1 s.2.2).1,
          (resizeSampleBounds (l.bottomLeft, l.topRight) hIdx
            (if shift0 then some (aspectFloat l.oriWidth l.oriHeight) else none)
            s.2.1 s.2.2).2, s.2.2) := by
  obtain ⟨t2, ht2⟩ := runResizeMoves_char samples 0 hIdx l.id hIdx
    (l.bottomLeft, l.topRight) none shift0
    (if shift0 then some (aspectFloat l.oriWidth l.oriHeight) else none)
  simp only [resizeSessionCommit, startResizing, resizeInit]
  rw [ht2]
  cases hls : lastOf samples with
  | none => simp [endResizing]
  | some v => simp [endResizing]

theorem resizeAspect_id (r : ℚ) (bl tr : Pt) (_hr : 0 < r)
    (hhne : |tr.y - bl.y| ≠ 0) (heq : |tr.x - bl.x| = r * |tr.y - bl.y|) :
    resizeAspect r bl tr = (bl, tr) := by
  have hdiv : |tr.x - bl.x| / |tr.y - bl.y| = r := by
    rw [heq, mul_div_cancel_right₀ _ hhne]
  simp only [resizeAspect]
  rw [if_neg ?h1, if_neg ?h2]
  case h1 =>
    rintro (⟨h0, _⟩ | ⟨_, hgt⟩)
    · exact hhne h0
    · rw [hdiv] at hgt
      exact lt_irrefl r hgt
  case h2 =>
    rintro ⟨_, hlt⟩
    rw [hdiv] at hlt
    exact lt_irrefl r hlt

theorem jsSign_abs (q : ℚ) (hq : q ≠ 0) : |jsSign q| = 1 := by
  rcases lt_or_gt_of_ne hq with h | h
  · simp [jsSign, not_lt.mpr (le_of_lt h), h]
  · simp [jsSign, h]

theorem wOf_normalizedRect (m p : Pt) : wOf (normalizedRect m p) = |m.x - p.x| := by
  simp only [normalizedRect, wOf]
  rw [max_sub_min_eq_abs, abs_abs, abs_sub_comm]

theorem hOf_normalizedRect (m p : Pt) : hOf (normalizedRect m p) = |m.y - p.y| := by
  simp only [normalizedRect, hOf]
  rw [abs_sub_comm, max_sub_min_eq_abs, abs_abs, abs_sub_comm]

theorem lockedBounds_exact (r : ℚ) (mouse pivot : Pt) (hIdx : ℕ) (hr : 0 < r)
    (hx : mouse.x ≠ pivot.x) (hy : mouse.y ≠ pivot.y) :
    wOf (calculateNewBoundsA mouse pivot hIdx true (some r)) =
      r * hOf (calculateNewBoundsA mouse pivot hIdx true (some r)) ∧
    hOf (calculateNewBoundsA mouse pivot hIdx true (some r)) ≠ 0 := by
  have hdx : mouse.x - pivot.x ≠ 0 := sub_ne_zero_of_ne hx
  have hdy : mouse.y - pivot.y ≠ 0 := sub_ne_zero_of_ne hy
  have hwpos : 0 < |mouse.x - pivot.x| := abs_pos.mpr hdx
  have hhpos : 0 < |mouse.y - pivot.y| := abs_pos.mpr hdy
  have hhne : |mouse.y - pivot.y| ≠ 0 := ne_of_gt hhpos
  simp only [calculateNewBoundsA]
  rw [if_pos (show True ∧ r ≠ 0 from ⟨trivial, ne_of_gt hr⟩)]
  rw [calculateNewBounds_eq_normalizedRect]
  set cm : Pt := ⟨pivot.x +
      (if (|mouse.y - pivot.y| = 0 ∧ 0 < |mouse.x - pivot.x|) ∨
          (|mouse.y - pivot.y| ≠ 0 ∧ |mouse.x - pivot.x| / |mouse.y - pivot.y| > r) then
        |mouse.x - pivot.x| else |mouse.y - pivot.y| * r) * jsSign (mouse.x - pivot.x),
    pivot.y +
      (if (|mouse.y - pivot.y| = 0 ∧ 0 < |mouse.x - pivot.x|) ∨
          (|mouse.y - pivot.y| ≠ 0 ∧ |mouse.x - pivot.x| / |mouse.y - pivot.y| > r) then
        |mouse.x - pivot.x| / r else |mouse.y - pivot.y|) * jsSign (mouse.y - pivot.y)⟩
    with hcm
  have hcmx : cm.x - pivot.x =
      (if (|mouse.y - pivot.y| = 0 ∧ 0 < |mouse.x - pivot.x|) ∨
          (|mouse.y - pivot.y| ≠ 0 ∧ |mouse.x - pivot.x| / |mouse.y - pivot.y| > r) then
        |mouse.x - pivot.x| else |mouse.y - pivot.y| * r) * jsSign (mouse.x - pivot.x) := by
    rw [hcm]
    ring
  have hcmy : cm.y - pivot.y =
      (if (|mouse.y - pivot.y| = 0 ∧ 0 < |mouse.x - pivot.x|) ∨
          (|mouse.y - pivot.y| ≠ 0 ∧ |mouse.x - pivot.x| / |mouse.y - pivot.y| > r) then
        |mouse.x - pivot.x| / r else |mouse.y - pivot.y|) * jsSign (mouse.y - pivot.y) := by
    rw [hcm]
    ring
  rw [wOf_normalizedRect, hOf_normalizedRect, hcmx, hcmy, abs_mul, abs_mul,
    jsSign_abs _ hdx, jsSign_abs _ hdy, mul_one, mul_one]
  by_cases hwide : (|mouse.y - pivot.y| = 0 ∧ 0 < |mouse.x - pivot.x|) ∨
      (|mouse.y - pivot.y| ≠ 0 ∧ |mouse.x - pivot.x| / |mouse.y - pivot.y| > r)
  · rw [if_pos hwide, if_pos hwide]
    have hchpos : 0 < |mouse.x - pivot.x| / r := div_pos hwpos hr
    constructor
    · rw [abs_abs, abs_of_pos hchpos, mul_comm r, div_mul_cancel₀ _ (ne_of_gt hr)]
    · rw [abs_of_pos hchpos]
      exact ne_of_gt hchpos
  · rw [if_neg hwide, if_neg hwide]
    have hcwpos : 0 < |mouse.y - pivot.y| * r := mul_pos hhpos hr
    constructor
    · rw [abs_of_pos hcwpos, abs_abs, mul_comm]
    · rw [abs_abs]
      exact hhne

/-- C1 counterexample: a resize session with aspect lock held, handle
index two, on the sample layer (original ratio two), with exactly one
move sample at mouse position (0, 5).  The machine commits the final
computed bounds of that last sample, namely ((0, 5), (0, 0)), but the
single store write carries ((0, 0), (0, 0)) instead: resizeLayer
re-applies the aspect adjustment at commit time and collapses the
degenerate rectangle, so what is written is not the final computed
bounds of the last move sample. -/
theorem resizeCommit_not_last_sample_cex :
    resizeSessionWrites (some "c1") (some sampleCanvas) sampleLayer 2 true
        [(100, ⟨0, 5⟩, true)] = [⟨"c1", "l1", ⟨0, 0⟩, ⟨0, 0⟩⟩] ∧
    resizeSessionCommit sampleLayer 2 true [(100, ⟨0, 5⟩, true)] =
      some ("l1", ⟨0, 5⟩, ⟨0, 0⟩, true) ∧
    (⟨0, 0⟩ : Pt) ≠ ⟨0, 5⟩ := by
  have hB : resizeSampleBounds (sampleLayer.bottomLeft, sampleLayer.topRight) 2
      (some (aspectFloat sampleLayer.oriWidth sampleLayer.oriHeight))
      ⟨0, 5⟩ true = (⟨0, 5⟩, ⟨0, 0⟩) := by
    norm_num [resizeSampleBounds, sessionPivot, getHandlePositions, getOppositeHandle,
      orUndef, calculateNewBoundsA, calculateNewBounds, normPair, jsSign, aspectFloat,
      Fraction.init, Fraction.getFloat, fracGcd, sampleLayer, Pt.mk.injEq]
  have hcommit : resizeSessionCommit sampleLayer 2 true [(100, ⟨0, 5⟩, true)] =
      some ("l1", ⟨0, 5⟩, ⟨0, 0⟩, true) := by
    rw [resizeSessionCommit_char]
    simp only [lastOf, if_true]
    rw [hB]
    simp [sampleLayer]
  refine ⟨?_, hcommit, ?_⟩
  · simp only [resizeSessionWrites, hcommit, handleLayerResizeEndW, resizeLayerOp]
    norm_num [sampleCanvas, findById, sampleLayer, resizeLayerAdjust, resizeAspect,
      StoreWrite.mk.injEq, Pt.mk.injEq]
  · intro h
    rw [Pt.mk.injEq] at h
    exact absurd h.2 (by norm_num)

/-- C1, amended: under the dalang wiring (per-move preview callbacks
mutate only the derived in-memory canvas; the end callbacks perform the
store write), pointer-up after at least one move sample produces
exactly one store write and a click with no move sample produces none.
For a move session the written bounds are exactly the final computed
bounds of the last move sample.  For a resize session the written
bounds are the final computed bounds of the last sample after
resizeLayer re-applies the aspect adjustment at commit time; that
re-adjustment is the identity when the lock is off at the last sample,
and also, for positive original dimensions and a session started with
the lock held, whenever the last mouse position lies strictly off both
pivot axes — but not in general, as the counterexample shows. -/
theorem transformSession_commit_writes
    (cid : String) (c : CanvasRec) (l : LayerData) (sm : Pt) (hIdx : ℕ) (shift0 : Bool)
    (dsamples : List (ℤ × Pt)) (rsamples : List (ℤ × Pt × Bool))
    (hcid : c.id = cid)
    (hfind : findById l.id c.layers = some l) :
    (dsamples = [] → dragSessionWrites (some cid) l sm dsamples = []) ∧
    (∀ s : ℤ × Pt, lastOf dsamples = some s →
      dragSessionWrites (some cid) l sm dsamples =
        [⟨cid, l.id, (dragBoundsOf sm (l.bottomLeft, l.topRight) s.2).1,
          (dragBoundsOf sm (l.bottomLeft, l.topRight) s.2).2⟩]) ∧
    (rsamples = [] → resizeSessionWrites (some cid) (some c) l hIdx shift0 rsamples = []) ∧
    (∀ s : ℤ × Pt × Bool, lastOf rsamples = some s →
      resizeSessionWrites (some cid) (some c) l hIdx shift0 rsamples =
        [⟨cid, l.id,
          (resizeLayerAdjust l.oriWidth l.oriHeight
            (resizeSampleBounds (l.bottomLeft, l.topRight) hIdx
              (if shift0 then some (aspectFloat l.oriWidth l.oriHeight) else none)
              s.2.1 s.2.2).1
            (resizeSampleBounds (l.bottomLeft, l.topRight) hIdx
              (if shift0 then some (aspectFloat l.oriWidth l.oriHeight) else none)
              s.2.1 s.2.2).2 s.2.2).1,
          (resizeLayerAdjust l.oriWidth l.oriHeight
            (resizeSampleBounds (l.bottomLeft, l.topRight) hIdx
              (if shift0 then some (aspectFloat l.oriWidth l.oriHeight) else none)
              s.2.1 s.2.2).1
            (resizeSampleBounds (l.bottomLeft, l.topRight) hIdx
              (if shift0 then some (aspectFloat l.oriWidth l.oriHeight) else none)
              s.2.1 s.2.2).2 s.2.2).2⟩]) ∧
    (∀ b : Pt × Pt, resizeLayerAdjust l.oriWidth l.oriHeight b.1 b.2 false = b) ∧
    (0 < l.oriWidth → 0 < l.oriHeight → ∀ mouse : Pt,
      mouse.x ≠ (sessionPivot (l.bottomLeft, l.topRight) hIdx).x →
      mouse.y ≠ (sessionPivot (l.bottomLeft, l.topRight) hIdx).y →
      resizeLayerAdjust l.oriWidth l.oriHeight
        (resizeSampleBounds (l.bottomLeft, l.topRight) hIdx
          (some (aspectFloat l.oriWidth l.oriHeight)) mouse true).1
        (resizeSampleBounds (l.bottomLeft, l.topRight) hIdx
          (some (aspectFloat l.oriWidth l.oriHeight)) mouse true).2 true =
      resizeSampleBounds (l.bottomLeft, l.topRight) hIdx
        (some (aspectFloat l.oriWidth l.oriHeight)) mouse true) := by
  refine ⟨?_, ?_, ?_, ?_, ?_, ?_⟩
  · intro h
    subst h
    simp [dragSessionWrites, dragSessionCommit_char, lastOf]
  · intro s hs
    simp only [dragSessionWrites, dragSessionCommit_char, hs, handleLayerMoveEndW]
  · intro h
    subst h
    simp [resizeSessionWrites, resizeSessionCommit_char, lastOf]
  · intro s hs
    simp only [resizeSessionWrites, resizeSessionCommit_char, hs, handleLayerResizeEndW,
      resizeLayerOp, if_pos hcid, hfind]
  · intro b
    simp [resizeLayerAdjust]
  · intro hW hH mouse hmx hmy
    have hHne : l.oriHeight ≠ 0 := ne_of_gt hH
    have hratio : aspectFloat l.oriWidth l.oriHeight =
        (l.oriWidth : ℚ) / (l.oriHeight : ℚ) := getFloat_init _ _ hHne
    have hrpos : 0 < aspectFloat l.oriWidth l.oriHeight := by
      rw [hratio]
      exact div_pos (by exact_mod_cast hW) (by exact_mod_cast hH)
    have hsb : resizeSampleBounds (l.bottomLeft, l.topRight) hIdx
        (some (aspectFloat l.oriWidth l.oriHeight)) mouse true =
        calculateNewBoundsA mouse (sessionPivot (l.bottomLeft, l.topRight) hIdx) hIdx true
          (some (aspectFloat l.oriWidth l.oriHeight)) := by
      simp [resizeSampleBounds, orUndef, ne_of_gt hrpos]
    obtain ⟨heq, hne⟩ := lockedBounds_exact (aspectFloat l.oriWidth l.oriHeight) mouse
      (sessionPivot (l.bottomLeft, l.topRight) hIdx) hIdx hrpos hmx hmy
    rw [hsb]
    have hid := resizeAspect_id (aspectFloat l.oriWidth l.oriHeight)
      (calculateNewBoundsA mouse (sessionPivot (l.bottomLeft, l.topRight) hIdx) hIdx true
        (some (aspectFloat l.oriWidth l.oriHeight))).1
      (calculateNewBoundsA mouse (sessionPivot (l.bottomLeft, l.topRight) hIdx) hIdx true
        (some (aspectFloat l.oriWidth l.oriHeight))).2 hrpos
      (by simpa [hOf] using hne) (by simpa [wOf, hOf] using heq)
    simp only [resizeLayerAdjust, if_neg hHne, ← hratio]
    rw [hid]
    simp only [if_true]

theorem transformSession_commit_writes_witness :
    dragSessionWrites (some "c1") sampleLayer ⟨0, 0⟩ [(20, ⟨3, 4⟩)] =
      [⟨"c1", sampleLayer.id,
        (dragBoundsOf ⟨0, 0⟩ (sampleLayer.bottomLeft, sampleLayer.topRight) ⟨3, 4⟩).1,
        (dragBoundsOf ⟨0, 0⟩ (sampleLayer.bottomLeft, sampleLayer.topRight) ⟨3, 4⟩).2⟩] ∧
    dragSessionWrites (some "c1") sampleLayer ⟨0, 0⟩ [] = [] ∧
    resizeSessionWrites (some "c1") (some sampleCanvas) sampleLayer 1 false [] = [] :=
  have h := transformSession_commit_writes "c1" sampleCanvas sampleLayer ⟨0, 0⟩ 1 false
    [(20, ⟨3, 4⟩)] [] rfl (by simp [findById, sampleCanvas, sampleLayer])
  have h0 := transformSession_commit_writes "c1" sampleCanvas sampleLayer ⟨0, 0⟩ 1 false
    [] [] rfl (by simp [findById, sampleCanvas, sampleLayer])
  ⟨h.2.1 (20, ⟨3, 4⟩) rfl, h0.1 rfl, h0.2.2.1 rfl⟩

end Wayang
